import Mathlib

/-!
Verification development for the qmfs repository.

Go strings and byte slices are modelled as `List Nat` (each element a byte
0..255); Go runes (code points) are modelled as `Nat`.  Fallible Go
functions are modelled with `Except`/`Option`.  Each definition is a direct
translation of the correspondingly named Go function.
-/

/-- Decidable equality for `Except` results, so that concrete runs of the
modelled operations can be checked by evaluation. -/
instance {ε α : Type} [DecidableEq ε] [DecidableEq α] : DecidableEq (Except ε α) :=
  fun a b =>
    match a, b with
    | .ok x, .ok y =>
      if h : x = y then .isTrue (by rw [h])
      else .isFalse (fun hc => h (Except.ok.inj hc))
    | .error x, .error y =>
      if h : x = y then .isTrue (by rw [h])
      else .isFalse (fun hc => h (Except.error.inj hc))
    | .ok _, .error _ => .isFalse (fun hc => Except.noConfusion hc)
    | .error _, .ok _ => .isFalse (fun hc => Except.noConfusion hc)

namespace qmfs

/-- Unicode code points with the White_Space property, as classified by Go's
`unicode.IsSpace`: U+0009..U+000D, U+0020, U+0085, U+00A0, U+1680,
U+2000..U+200A, U+2028, U+2029, U+202F, U+205F, U+3000. -/
def isSpaceRune (r : Nat) : Bool :=
  r == 9 || r == 10 || r == 11 || r == 12 || r == 13 || r == 32 ||
  r == 133 || r == 160 || r == 5760 ||
  (Nat.ble 8192 r && Nat.ble r 8202) ||
  r == 8232 || r == 8233 || r == 8239 || r == 8287 || r == 12288

/-- Continuation byte test, Go `utf8.RuneStart` negated: byte of form 10xxxxxx. -/
def isCont (b : Nat) : Bool :=
  Nat.ble 128 b && Nat.ble b 191

/-- Acceptable second byte of a multi-byte sequence given the first byte,
following Go `utf8`'s accept-range table (rejects overlong encodings,
surrogates and values above U+10FFFF). -/
def accept2nd (b0 b1 : Nat) : Bool :=
  if b0 == 224 then Nat.ble 160 b1 && Nat.ble b1 191
  else if b0 == 237 then Nat.ble 128 b1 && Nat.ble b1 159
  else if b0 == 240 then Nat.ble 144 b1 && Nat.ble b1 191
  else if b0 == 244 then Nat.ble 128 b1 && Nat.ble b1 143
  else Nat.ble 128 b1 && Nat.ble b1 191

/-- Go `utf8.DecodeRune` on a byte list: returns the decoded rune and its
size in bytes.  Invalid or truncated sequences decode to U+FFFD with size 1;
the empty input decodes to U+FFFD with size 0. -/
def utf8DecodeRune : List Nat → Nat × Nat
  | [] => (65533, 0)
  | b0 :: rest =>
    if b0 < 128 then (b0, 1)
    else if b0 < 194 || 244 < b0 then (65533, 1)
    else if b0 < 224 then
      match rest with
      | b1 :: _ =>
        if accept2nd b0 b1 then ((b0 % 32) * 64 + (b1 % 64), 2) else (65533, 1)
      | [] => (65533, 1)
    else if b0 < 240 then
      match rest with
      | b1 :: b2 :: _ =>
        if accept2nd b0 b1 && isCont b2 then
          ((b0 % 16) * 4096 + (b1 % 64) * 64 + (b2 % 64), 3)
        else (65533, 1)
      | _ => (65533, 1)
    else
      match rest with
      | b1 :: b2 :: b3 :: _ =>
        if accept2nd b0 b1 && isCont b2 && isCont b3 then
          ((b0 % 8) * 262144 + (b1 % 64) * 4096 + (b2 % 64) * 64 + (b3 % 64), 4)
        else (65533, 1)
      | _ => (65533, 1)

/-- Start position of the last rune, following the backward scan of Go
`utf8.DecodeLastRune`: starting from the second-to-last byte, scan back at
most to `len-4` looking for a non-continuation byte; if none is found the
scan runs out and the position is clamped as in the Go code. -/
def lastRuneStart (xs : List Nat) : Nat :=
  let n := xs.length
  if 2 ≤ n ∧ isCont (xs.getD (n-2) 0) = false then n-2
  else if 3 ≤ n ∧ isCont (xs.getD (n-3) 0) = false then n-3
  else if 4 ≤ n ∧ isCont (xs.getD (n-4) 0) = false then n-4
  else if n ≤ 4 then 0 else n-5

/-- Go `utf8.DecodeLastRune`: decode the final rune of a byte list.  A final
ASCII byte decodes as itself; otherwise the candidate start position is
located by `lastRuneStart` and the decode is accepted only if it consumes
exactly the remaining bytes. -/
def utf8DecodeLastRune (xs : List Nat) : Nat × Nat :=
  match xs.getLast? with
  | none => (65533, 0)
  | some last =>
    if last < 128 then (last, 1)
    else
      let start := lastRuneStart xs
      let rs := utf8DecodeRune (xs.drop start)
      if start + rs.2 = xs.length then rs else (65533, 1)

/-- Fuel-driven loop of the leading-whitespace trim.  Each iteration
consumes at least one byte, so any fuel of at least the list length gives
the untruncated loop; the fuel-exhausted case is unreachable from
`utf8TrimLeft`. -/
def utf8TrimLeftFuel : Nat → List Nat → List Nat
  | _, [] => []
  | 0, s => s
  | fuel+1, b :: rest =>
    if isSpaceRune (utf8DecodeRune (b :: rest)).1 then
      utf8TrimLeftFuel fuel ((b :: rest).drop (utf8DecodeRune (b :: rest)).2)
    else b :: rest

/-- Leading-whitespace trim of Go `strings.TrimSpace` (the
`TrimLeftFunc(s, unicode.IsSpace)` part): repeatedly drop the first rune
while it is whitespace. -/
def utf8TrimLeft (s : List Nat) : List Nat :=
  utf8TrimLeftFuel s.length s

/-- Fuel-driven loop of the trailing-whitespace trim. -/
def utf8TrimRightFuel : Nat → List Nat → List Nat
  | _, [] => []
  | 0, s => s
  | fuel+1, b :: rest =>
    if isSpaceRune (utf8DecodeLastRune (b :: rest)).1 then
      utf8TrimRightFuel fuel
        ((b :: rest).take ((b :: rest).length - (utf8DecodeLastRune (b :: rest)).2))
    else b :: rest

/-- Trailing-whitespace trim of Go `strings.TrimSpace` (the
`TrimRightFunc(s, unicode.IsSpace)` part): repeatedly drop the last rune
while it is whitespace. -/
def utf8TrimRight (s : List Nat) : List Nat :=
  utf8TrimRightFuel s.length s

/-- Go `strings.TrimSpace` on raw bytes: trim leading then trailing Unicode
whitespace runes (bytes that are not valid UTF-8 decode to U+FFFD, which is
not whitespace, and therefore stop the trimming). -/
def goTrimSpace (x : List Nat) : List Nat :=
  utf8TrimRight (utf8TrimLeft x)

end qmfs

namespace gosha256

/-- Rotate a 32-bit word right by `n`. -/
def rotr32 (n x : Nat) : Nat :=
  ((x >>> n) ||| (x <<< (32 - n))) % 4294967296

def bigSigma0 (x : Nat) : Nat := (rotr32 2 x) ^^^ (rotr32 13 x) ^^^ (rotr32 22 x)

def bigSigma1 (x : Nat) : Nat := (rotr32 6 x) ^^^ (rotr32 11 x) ^^^ (rotr32 25 x)

def smallSigma0 (x : Nat) : Nat := (rotr32 7 x) ^^^ (rotr32 18 x) ^^^ (x >>> 3)

def smallSigma1 (x : Nat) : Nat := (rotr32 17 x) ^^^ (rotr32 19 x) ^^^ (x >>> 10)

def ch (x y z : Nat) : Nat := (x &&& y) ^^^ ((x ^^^ 4294967295) &&& z)

def maj (x y z : Nat) : Nat := (x &&& y) ^^^ (x &&& z) ^^^ (y &&& z)

/-- The 64 SHA-256 round constants. -/
def K : List Nat :=
  [1116352408, 1899447441, 3049323471, 3921009573, 961987163, 1508970993,
   2453635748, 2870763221, 3624381080, 310598401, 607225278, 1426881987,
   1925078388, 2162078206, 2614888103, 3248222580, 3835390401, 4022224774,
   264347078, 604807628, 770255983, 1249150122, 1555081692, 1996064986,
   2554220882, 2821834349, 2952996808, 3210313671, 3336571891, 3584528711,
   113926993, 338241895, 666307205, 773529912, 1294757372, 1396182291,
   1695183700, 1986661051, 2177026350, 2456956037, 2730485921, 2820302411,
   3259730800, 3345764771, 3516065817, 3600352804, 4094571909, 275423344,
   430227734, 506948616, 659060556, 883997877, 958139571, 1322822218,
   1537002063, 1747873779, 1955562222, 2024104815, 2227730452, 2361852424,
   2428436474, 2756734187, 3204031479, 3329325298]

/-- The eight 32-bit words of the running hash state. -/
structure Hash8 where
  a : Nat
  b : Nat
  c : Nat
  d : Nat
  e : Nat
  f : Nat
  g : Nat
  h : Nat

def initH : Hash8 :=
  ⟨1779033703, 3144134277, 1013904242, 2773480762,
   1359893119, 2600822924, 528734635, 1541459225⟩

/-- Big-endian bytes of a value, `n` bytes wide. -/
def toBytesBE : Nat → Nat → List Nat
  | 0, _ => []
  | n+1, v => toBytesBE n (v / 256) ++ [v % 256]

/-- Group a byte list into big-endian 32-bit words (length a multiple of 4). -/
def bytesToWords : List Nat → List Nat
  | a :: b :: c :: d :: rest => (((a * 256 + b) * 256 + c) * 256 + d) :: bytesToWords rest
  | _ => []

/-- SHA-256 message padding: append 0x80, zero bytes, and the 64-bit
big-endian bit length, to a multiple of 64 bytes. -/
def pad (msg : List Nat) : List Nat :=
  let zeros := (64 - ((msg.length + 9) % 64)) % 64
  msg ++ [128] ++ List.replicate zeros 0 ++ toBytesBE 8 (8 * msg.length)

/-- Fuel-driven loop splitting into 64-byte blocks; fuel at least the
list length gives the untruncated split. -/
def chunks64Fuel : Nat → List Nat → List (List Nat)
  | _, [] => []
  | 0, _ => []
  | fuel+1, b :: rest => (b :: rest).take 64 :: chunks64Fuel fuel ((b :: rest).drop 64)

/-- Split into 64-byte blocks. -/
def chunks64 (xs : List Nat) : List (List Nat) :=
  chunks64Fuel xs.length xs

/-- Extend the 16-word block to the 64-word message schedule. -/
def scheduleStep (acc : List Nat) : List Nat :=
  let t := acc.length
  acc ++ [(smallSigma1 (acc.getD (t-2) 0) + acc.getD (t-7) 0 +
           smallSigma0 (acc.getD (t-15) 0) + acc.getD (t-16) 0) % 4294967296]

def buildSchedule (ws : List Nat) : List Nat :=
  (List.range 48).foldl (fun acc _ => scheduleStep acc) ws

/-- One SHA-256 compression round. -/
def round1 (st : Hash8) (kw : Nat × Nat) : Hash8 :=
  let t1 := (st.h + bigSigma1 st.e + ch st.e st.f st.g + kw.1 + kw.2) % 4294967296
  let t2 := (bigSigma0 st.a + maj st.a st.b st.c) % 4294967296
  ⟨(t1 + t2) % 4294967296, st.a, st.b, st.c, (st.d + t1) % 4294967296, st.e, st.f, st.g⟩

/-- Process one 64-byte block. -/
def compress (st : Hash8) (block : List Nat) : Hash8 :=
  let ws := buildSchedule (bytesToWords block)
  let r := (K.zip ws).foldl round1 st
  ⟨(st.a + r.a) % 4294967296, (st.b + r.b) % 4294967296,
   (st.c + r.c) % 4294967296, (st.d + r.d) % 4294967296,
   (st.e + r.e) % 4294967296, (st.f + r.f) % 4294967296,
   (st.g + r.g) % 4294967296, (st.h + r.h) % 4294967296⟩

def digestBytes (st : Hash8) : List Nat :=
  toBytesBE 4 st.a ++ toBytesBE 4 st.b ++ toBytesBE 4 st.c ++ toBytesBE 4 st.d ++
  toBytesBE 4 st.e ++ toBytesBE 4 st.f ++ toBytesBE 4 st.g ++ toBytesBE 4 st.h

/-- SHA-256 of a byte list, as the 32-byte digest (Go `sha256.Sum256`). -/
def sha256 (msg : List Nat) : List Nat :=
  digestBytes ((chunks64 (pad msg)).foldl compress initH)

end gosha256

namespace qmfsshard

/-- Lowercase hex digit byte for a value 0..15 (the bytes of Go `%x`). -/
def hexDigit (n : Nat) : Nat :=
  if n < 10 then 48 + n else 87 + n

/-- Lowercase hex digest string (as bytes) of a byte list, Go
`fmt.Sprintf("%x", ...)`: two hex digits per byte. -/
def hexDigest (bs : List Nat) : List Nat :=
  bs.flatMap (fun b => [hexDigit (b / 16), hexDigit (b % 16)])

/-- Go `qmfsshard.Shard`: the first two and next two hex digits of the
SHA-256 digest of `key ++ entityID`, as a two-element list of strings. -/
def Shard (key : List Nat) (entityID : List Nat) : List (List Nat) :=
  let data := key ++ entityID
  let hd := hexDigest (gosha256.sha256 data)
  [hd.take 2, (hd.drop 2).take 2]

end qmfsshard

namespace qmfsquery

/-- Byte allowed by the filename regular expression `[A-Za-z0-9_.-]`. -/
def filenameByteOK (b : Nat) : Bool :=
  (Nat.ble 65 b && Nat.ble b 90) || (Nat.ble 97 b && Nat.ble b 122) ||
  (Nat.ble 48 b && Nat.ble b 57) || b == 95 || b == 46 || b == 45

/-- Go `qmfsquery.ValidFilename`: non-empty, not starting with `-`, and
matching `^[A-Za-z0-9_.-]+$` (all allowed code points are ASCII, so the
rune-level regular expression match is the byte-level test). -/
def ValidFilename (fn : List Nat) : Bool :=
  if fn = [] then false
  else if fn.head? = some 45 then false
  else fn.all filenameByteOK

/-- Go `qmfsquery.ValidPath`: no leading or trailing slash, and every
slash-separated component is a valid filename. -/
def ValidPath (fn : List Nat) : Bool :=
  if fn.head? = some 47 || fn.getLast? = some 47 then false
  else (fn.splitOn 47).all ValidFilename

end qmfsquery

namespace qmfsdb

/-- Index of the first non-whitespace byte, the forward scan of Go
`partitionData` (`unicode.IsSpace(rune(b))` applied to each byte value). -/
def firstNonSpaceIdx : List Nat → Option Nat
  | [] => none
  | b :: rest =>
    if qmfs.isSpaceRune b then (firstNonSpaceIdx rest).map (fun i => i + 1)
    else some 0

/-- Index of the last non-whitespace byte, the backward scan of Go
`partitionData`, expressed as the forward scan of the reversed list. -/
def lastNonSpaceIdx (x : List Nat) : Option Nat :=
  match firstNonSpaceIdx x.reverse with
  | some j => some (x.length - 1 - j)
  | none => none

/-- Go `qmfsdb.partitionData`: split raw bytes into whitespace lead,
trimmed middle, and whitespace tail.  Empty input gives three empty parts;
all-whitespace input is returned entirely as the lead part. -/
def partitionData (x : List Nat) : List Nat × List Nat × List Nat :=
  if x = [] then ([], [], [])
  else
    match firstNonSpaceIdx x, lastNonSpaceIdx x with
    | some fi, some la =>
      let preLen := fi
      let sufLen := x.length - 1 - la
      (x.take preLen,
       (x.drop preLen).take (x.length - sufLen - preLen),
       x.drop (x.length - sufLen))
    | _, _ => (x, [], [])

/-- Go `qmfsdb.computeFileMetadata`: checksums over the full bytes and over
`strings.TrimSpace(string(data))`. -/
structure Checksums where
  length : Nat
  trimmedLength : Nat
  sha256 : List Nat
  trimmedSha256 : List Nat
deriving DecidableEq

def computeFileMetadata (data : List Nat) : Checksums :=
  let trimmed := qmfs.goTrimSpace data
  { length := data.length
    trimmedLength := trimmed.length
    sha256 := gosha256.sha256 data
    trimmedSha256 := gosha256.sha256 trimmed }

/-- An empty Go byte slice is bound as SQL NULL ("empty byte slices are
stored as NULL"). -/
def optOfList (l : List Nat) : Option (List Nat) :=
  if l = [] then none else some l

/-- A row of the `items` table.  Blob columns that may be NULL are
`Option`s; `none` is SQL NULL. -/
structure Row where
  rowGuid : List Nat
  ns : List Nat
  entityId : List Nat
  filename : List Nat
  tombstone : Bool
  active : Bool
  directory : Bool
  timestampUnixNano : Int
  dataLength : Option Nat
  sha256Hash : Option (List Nat)
  trimmedDataLength : Option Nat
  trimmedSha256Hash : Option (List Nat)
  wsPre : Option (List Nat)
  trimmedData : Option (List Nat)
  wsSuf : Option (List Nat)
  shard1 : List Nat
  shard2 : List Nat
deriving DecidableEq

/-- The WHERE clause of the prepared `queryReadFile` statement:
`active=1 AND tombstone=0 AND namespace=.. AND entity_id=.. AND filename=..`. -/
def currentRowPred (ns eid fn : List Nat) (r : Row) : Bool :=
  r.active && !r.tombstone && r.ns == ns && r.entityId == eid && r.filename == fn

/-- The current active non-tombstone row for a key, as read inside the
write transaction (first matching row). -/
def findCurrentRow (db : List Row) (ns eid fn : List Nat) : Option Row :=
  db.find? (currentRowPred ns eid fn)

/-- `previousContents.RowGUID` as used by the Go revision check: the GUID of
the current row, or the zero value (empty string) when no row was found. -/
def currentRowGuid (db : List Row) (ns eid fn : List Nat) : List Nat :=
  match findCurrentRow db ns eid fn with
  | some r => r.rowGuid
  | none => []

/-- The prepared `stmtMarkOldRowsInactive` statement: set `active=0` and
NULL the three content blobs on every row matching the key. -/
def markOldRowsInactive (db : List Row) (ns eid fn : List Nat) : List Row :=
  db.map fun r =>
    if r.entityId == eid && r.filename == fn && r.ns == ns then
      { r with active := false, trimmedData := none, wsPre := none, wsSuf := none }
    else r

/-- Go `qmfsdb.hasDataEqualTo`: length check followed by the three segment
comparisons against slices of `data` (NULL blobs scan as empty slices). -/
def hasDataEqualTo (f : Row) (data : List Nat) : Bool :=
  let pre := f.wsPre.getD []
  let trm := f.trimmedData.getD []
  let suf := f.wsSuf.getD []
  if data.length ≠ pre.length + trm.length + suf.length then false
  else if pre ≠ data.take pre.length then false
  else if suf ≠ data.drop (data.length - suf.length) then false
  else if trm ≠ (data.drop pre.length).take (data.length - suf.length - pre.length) then false
  else true

inductive DeletionType where
  | deleteNone
  | deleteFile
  | deleteDir
  | deleteAny
deriving DecidableEq

/-- gRPC status codes used by the storage engine. -/
inductive Code where
  | invalidArgument
  | notFound
  | failedPrecondition
  | internal
  | unimplemented
deriving DecidableEq

/-- The header returned by a write or read (`pb.EntityFileHeader`). -/
structure EntityFileHeader where
  ns : List Nat
  entityId : List Nat
  filename : List Nat
  lastChanged : Int
  rowGuid : List Nat
  tombstone : Bool
  directory : Bool
  checksums : Option Checksums
deriving DecidableEq

/-- The row built by the `stmtInsertNewRow` field map of
`writeOrDeleteFile`: checksums for non-tombstone rows, the whitespace
partition of the data, shard columns, `active=1`. -/
def insertedRow (t : Int) (rowGUID ns eid fn : List Nat) (tombstone : Bool)
    (data : List Nat) (directory : Bool) (shard1 shard2 : List Nat) : Row :=
  let parts := partitionData data
  { rowGuid := rowGUID
    ns := ns
    entityId := eid
    filename := fn
    tombstone := tombstone
    active := true
    directory := directory
    timestampUnixNano := t
    dataLength := if tombstone then none else some (computeFileMetadata data).length
    sha256Hash := if tombstone then none else some (computeFileMetadata data).sha256
    trimmedDataLength := if tombstone then none else some (computeFileMetadata data).trimmedLength
    trimmedSha256Hash := if tombstone then none else some (computeFileMetadata data).trimmedSha256
    wsPre := optOfList parts.1
    trimmedData := optOfList parts.2.1
    wsSuf := optOfList parts.2.2
    shard1 := shard1
    shard2 := shard2 }

/-- Go `qmfsdb.writeOrDeleteFile`.  The randomly generated GUID and the
current time are passed as the `rowGUID` and `t` arguments; the database
(the `items` table) is passed and returned explicitly.  The result carries
the returned header, the table after commit, and the `actuallyChanging`
flag (the change hook fires exactly when it is true).  An error aborts the
transaction, leaving the table unchanged. -/
def writeOrDeleteFile (shardingKey : List Nat) (db : List Row) (t : Int)
    (rowGUID ns eid fn oldRevisionGUID : List Nat) (tombstone : Bool)
    (data : List Nat) (directory : Bool) (replaceType : DeletionType) :
    Except Code (EntityFileHeader × List Row × Bool) :=
  if data.length > 0 ∧ tombstone then .error .internal
  else if eid = [] then .error .invalidArgument
  else if shardingKey.length = 0 then .error .internal
  else
    let shards := qmfsshard.Shard shardingKey eid
    if shards.length ≠ 2 then .error .internal
    else if fn = [] then .error .invalidArgument
    else
      let returnedHeader : EntityFileHeader :=
        { ns := ns
          entityId := eid
          filename := fn
          lastChanged := t
          rowGuid := rowGUID
          tombstone := tombstone
          directory := directory && !tombstone
          checksums := if tombstone then none else some (computeFileMetadata data) }
      let current := findCurrentRow db ns eid fn
      let guardErr : Bool :=
        match current, replaceType with
        | some _, .deleteNone => true
        | some prev, .deleteFile => prev.directory
        | some prev, .deleteDir => !prev.directory
        | _, _ => false
      if guardErr then .error .failedPrecondition
      else if oldRevisionGUID ≠ [] ∧ oldRevisionGUID ≠ currentRowGuid db ns eid fn then
        .error .failedPrecondition
      else if tombstone ∧ current = none then .error .notFound
      else
        let insertPath : Except Code (EntityFileHeader × List Row × Bool) :=
          .ok (returnedHeader,
               markOldRowsInactive db ns eid fn ++
                 [insertedRow t rowGUID ns eid fn tombstone data directory
                    (shards.getD 0 []) (shards.getD 1 [])],
               true)
        match current with
        | some prev =>
          if !tombstone && hasDataEqualTo prev data then
            .ok ({ returnedHeader with
                     lastChanged := prev.timestampUnixNano
                     rowGuid := prev.rowGuid },
                 db, false)
          else insertPath
        | none => insertPath

/-- Go `qmfsdb.WriteFile`: validate the path and the directory/data
combination, choose the replace type, and delegate with `tombstone=false`. -/
def WriteFile (shardingKey : List Nat) (db : List Row) (t : Int)
    (rowGUID ns eid fn oldRevisionGUID : List Nat) (data : List Nat)
    (directory : Bool) : Except Code (EntityFileHeader × List Row × Bool) :=
  if !qmfsquery.ValidPath fn then .error .invalidArgument
  else if directory && data.length > 0 then .error .invalidArgument
  else
    let replaceType := if directory then DeletionType.deleteNone else DeletionType.deleteFile
    writeOrDeleteFile shardingKey db t rowGUID ns eid fn oldRevisionGUID false data
      directory replaceType

/-- The header rebuilt from a row by `ReadFile` (NULL numeric and blob
checksum columns scan to zero values; only non-tombstone rows are read, and
those always carry checksums). -/
def headerOfRow (r : Row) : EntityFileHeader :=
  { ns := r.ns
    entityId := r.entityId
    filename := r.filename
    lastChanged := r.timestampUnixNano
    rowGuid := r.rowGuid
    tombstone := false
    directory := r.directory
    checksums := some { length := r.dataLength.getD 0
                        trimmedLength := r.trimmedDataLength.getD 0
                        sha256 := r.sha256Hash.getD []
                        trimmedSha256 := r.trimmedSha256Hash.getD [] } }

structure ReadFileResult where
  header : EntityFileHeader
  data : List Nat
deriving DecidableEq

/-- Go `qmfsdb.ReadFile`: load the current active non-tombstone row and
rebuild the bytes as `prefix ++ (trimmed ++ suffix)`. -/
def ReadFile (db : List Row) (ns eid fn : List Nat) : Except Code ReadFileResult :=
  if eid = [] then .error .invalidArgument
  else if fn = [] then .error .invalidArgument
  else
    match findCurrentRow db ns eid fn with
    | none => .error .notFound
    | some row =>
      .ok { header := headerOfRow row
            data := row.wsPre.getD [] ++ (row.trimmedData.getD [] ++ row.wsSuf.getD []) }

/-- The data bytes of a `ReadFile` response. -/
def readFileData (db : List Row) (ns eid fn : List Nat) : Except Code (List Nat) :=
  (ReadFile db ns eid fn).map (fun r => r.data)

/-- SQL equality of a nullable blob column against a possibly NULL bound
parameter: a comparison involving NULL is never true. -/
def sqlEqBlob (col : Option (List Nat)) (param : Option (List Nat)) : Bool :=
  match col, param with
  | some c, some p => c == p
  | _, _ => false

/-- SQL equality of a nullable integer column against a non-NULL bound
parameter. -/
def sqlEqNat (col : Option Nat) (param : Nat) : Bool :=
  match col with
  | some c => c == param
  | none => false

/-- The ON/WHERE condition generated by `prepareDynamicEntitiesQuery` for a
non-inverted `FileContents` clause, evaluated on a candidate joined row
`r`: the basic join expression (`namespace`, `entity_id`, `active=1`,
`tombstone=0`) plus `filename`, `trimmed_data_length`,
`trimmed_sha256_hash` and `trimmed_data` comparisons.  The length and
SHA-256 parameters come from `computeFileMetadata(contents)`, while the
`trimmed_data` parameter is the raw `contents` value itself
(`trimmedData := string(contents)` in the source). -/
def fileContentsJoinRow (ns fn contents e : List Nat) (r : Row) : Bool :=
  r.ns == ns && r.entityId == e && r.active && !r.tombstone &&
  r.filename == fn &&
  sqlEqNat r.trimmedDataLength (computeFileMetadata contents).trimmedLength &&
  sqlEqBlob r.trimmedSha256Hash (some (computeFileMetadata contents).trimmedSha256) &&
  sqlEqBlob r.trimmedData (optOfList contents)

/-- Membership of entity `e` in the result stream of the dynamic query for
the single-clause parsed query `fn=contents`: there is a base row (active,
non-tombstone, in the namespace, with that entity id) and a LEFT-JOINed row
satisfying the `FileContents` join condition (`row_guid IS NOT NULL` keeps
exactly the base rows with at least one join match). -/
def queryFileContentsResults (db : List Row) (ns fn contents e : List Nat) : Bool :=
  db.any (fun b => b.active && !b.tombstone && b.ns == ns && b.entityId == e) &&
  db.any (fileContentsJoinRow ns fn contents e)

end qmfsdb

namespace qmfs

/-- UTF-8 encoding of a rune, as in Go's `string([]rune)` conversion:
surrogate halves and out-of-range values encode as U+FFFD. -/
def utf8EncodeRune (r : Nat) : List Nat :=
  if r < 128 then [r]
  else if r < 2048 then [192 + r / 64, 128 + r % 64]
  else if (55296 ≤ r ∧ r ≤ 57343) ∨ 1114111 < r then [239, 191, 189]
  else if r < 65536 then [224 + r / 4096, 128 + (r / 64) % 64, 128 + r % 64]
  else [240 + r / 262144, 128 + (r / 4096) % 64, 128 + (r / 64) % 64, 128 + r % 64]

/-- Fuel-driven loop decoding a byte string to runes; fuel at least the
list length gives the untruncated decode. -/
def decodeRunesFuel : Nat → List Nat → List Nat
  | _, [] => []
  | 0, _ => []
  | fuel+1, b :: rest =>
    (utf8DecodeRune (b :: rest)).1 ::
      decodeRunesFuel fuel ((b :: rest).drop (utf8DecodeRune (b :: rest)).2)

/-- The rune sequence of a byte string, as produced by Go's
`for _, ch := range s`: decode runes left to right, one replacement rune
per invalid byte. -/
def decodeRunes (s : List Nat) : List Nat :=
  decodeRunesFuel s.length s

end qmfs

namespace qmfsquery

/-- Causes of a query-parse failure, one constructor per distinct error
produced in `qmfsquery.go` (each `fmt.Errorf` site maps to one
constructor). -/
inductive ParseErr where
  /-- `invalid filename` in `parseClause`, and `bad filename` in `parseArgs`. -/
  | invalidPath
  /-- `unmatched "]"` in `splitQuerystring`. -/
  | unmatchedBracket
  /-- `malformed function call clause (must contain brackets)`. -/
  | missingBrackets
  /-- `malformed function call clause (top-level comma)`. -/
  | topLevelComma
  /-- `malformed function call clause (no function name)`. -/
  | noFunctionName
  /-- `unknown query function`. -/
  | unknownFunction
  /-- `want %d args got %d` in `parseArgs`. -/
  | wrongArgCount
  /-- `bad number` in `parseArgs` (failed `strconv.Atoi`). -/
  | badNumber
  /-- invalid URL escape from `url.PathUnescape`. -/
  | badEscape
  /-- `internal error: unknown arg code` (unreachable from `Parse`). -/
  | unknownArgCode
deriving DecidableEq

/-- A parsed clause kind (`pb.EntitiesQuery_Clause`), restricted to the
kinds producible by `Parse`: `FileExists`, `FileHasTrimmedContents`
(`blank[f]` leaves the contents empty), and `RandomSelection`. -/
inductive ClauseKind where
  | fileExists (filename : List Nat)
  | fileContents (filename contents : List Nat)
  | random (n : Int)
deriving DecidableEq

structure Clause where
  invert : Bool
  kind : ClauseKind
deriving DecidableEq

def ishex (b : Nat) : Bool :=
  (Nat.ble 48 b && Nat.ble b 57) || (Nat.ble 97 b && Nat.ble b 102) ||
  (Nat.ble 65 b && Nat.ble b 70)

def unhex (b : Nat) : Nat :=
  if b ≤ 57 then b - 48
  else if b ≤ 70 then b - 65 + 10
  else b - 97 + 10

/-- Go `url.PathUnescape`: decode `%XX` escapes; a `%` not followed by two
hex digits is an escape error.  (`+` is left alone in path mode.) -/
def pathUnescape : List Nat → Except ParseErr (List Nat)
  | [] => .ok []
  | 37 :: rest =>
    match rest with
    | h1 :: h2 :: rest2 =>
      if ishex h1 ∧ ishex h2 then do
        let tail ← pathUnescape rest2
        .ok ((unhex h1 * 16 + unhex h2) :: tail)
      else .error .badEscape
    | _ => .error .badEscape
  | b :: rest => do
    let tail ← pathUnescape rest
    .ok (b :: tail)

/-- The `flush` closure of `splitQuerystring`: emit the collected runes as
a string unless empty. -/
def flushOne (collected : List Nat) : List (List Nat) :=
  if collected = [] then [] else [collected.flatMap qmfs.utf8EncodeRune]

/-- The rune loop of Go `qmfsquery.splitQuerystring`: split on top-level
commas, tracking bracket nesting; a `]` at level zero is an error. -/
def splitLoop : List Nat → Nat → List Nat → List (List Nat) →
    Except ParseErr (List (List Nat))
  | [], _, collected, rv => .ok (rv ++ flushOne collected)
  | ch :: rest, level, collected, rv =>
    if ch = 44 then
      if level = 0 then splitLoop rest 0 [] (rv ++ flushOne collected)
      else splitLoop rest level (collected ++ [ch]) rv
    else if ch = 91 then splitLoop rest (level + 1) (collected ++ [ch]) rv
    else if ch = 93 then
      if level = 0 then .error .unmatchedBracket
      else splitLoop rest (level - 1) (collected ++ [ch]) rv
    else splitLoop rest level (collected ++ [ch]) rv

/-- Go `qmfsquery.splitQuerystring` on a byte string. -/
def splitQuerystring (s : List Nat) : Except ParseErr (List (List Nat)) :=
  splitLoop (qmfs.decodeRunes s) 0 [] []

structure simpleFunction where
  functionName : List Nat
  args : List (List Nat)
deriving DecidableEq

/-- Go `qmfsquery.parseSimpleFunction`: re-split (must be a single
component), require both brackets, slice out the argument string between
the first `[` and the last `]`, split the arguments, and take the text
before the first `[` as the function name (which must not be blank after
trimming). -/
def parseSimpleFunction (s : List Nat) : Except ParseErr simpleFunction := do
  let singleComp ← splitQuerystring s
  if singleComp.length ≠ 1 then throw .topLevelComma
  else if ¬(s.contains 91) ∨ ¬(s.contains 93) then throw .missingBrackets
  else
    let argsStart := s.findIdx (fun b => b == 91)
    let argsEnd := s.length - 1 - (s.reverse.findIdx (fun b => b == 93))
    let unparsedArgsString :=
      qmfs.goTrimSpace ((s.drop (argsStart + 1)).take (argsEnd - (argsStart + 1)))
    let unparsedArgs ← splitQuerystring unparsedArgsString
    let functionName := s.take argsStart
    if qmfs.goTrimSpace functionName = [] then throw .noFunctionName
    else pure ⟨functionName, unparsedArgs⟩

/-- Go `strconv.Atoi`: optional sign, decimal digits, 64-bit range. -/
def atoi (s : List Nat) : Except ParseErr Int :=
  match s with
  | [] => .error .badNumber
  | _ =>
    let (neg, digits) :=
      if s.head? = some 45 then (true, s.drop 1)
      else if s.head? = some 43 then (false, s.drop 1)
      else (false, s)
    if digits = [] then .error .badNumber
    else if ¬(digits.all (fun b => Nat.ble 48 b && Nat.ble b 57)) then .error .badNumber
    else
      let n : Nat := digits.foldl (fun acc b => acc * 10 + (b - 48)) 0
      if neg then
        if n ≤ 9223372036854775808 then .ok (-(n : Int)) else .error .badNumber
      else
        if n ≤ 9223372036854775807 then .ok (n : Int) else .error .badNumber

inductive ArgVal where
  | s (v : List Nat)
  | i (v : Int)
deriving DecidableEq

/-- The typed-argument loop of Go `qmfsquery.parseArgs`: `'f'` validates a
path and falls through to `'s'` (string); `'i'` parses an integer. -/
def parseArgsLoop : List (Char × List Nat) → Except ParseErr (List ArgVal)
  | [] => .ok []
  | (code, v) :: rest =>
    if code = 'f' then
      if ¬ ValidPath v then .error .invalidPath
      else do
        let rs ← parseArgsLoop rest
        .ok (.s v :: rs)
    else if code = 's' then do
      let rs ← parseArgsLoop rest
      .ok (.s v :: rs)
    else if code = 'i' then do
      let n ← atoi v
      let rs ← parseArgsLoop rest
      .ok (.i n :: rs)
    else .error .unknownArgCode

/-- Go `qmfsquery.parseArgs`: arity check, then the typed loop. -/
def parseArgs (unparsedArgs : List (List Nat)) (spec : List Char) :
    Except ParseErr (List ArgVal) :=
  if spec.length ≠ unparsedArgs.length then .error .wrongArgCount
  else parseArgsLoop (spec.zip unparsedArgs)

/-- The bytes of the string `blank`. -/
def blankName : List Nat := [98, 108, 97, 110, 107]

/-- The bytes of the string `random`. -/
def randomName : List Nat := [114, 97, 110, 100, 111, 109]

/-- Go `qmfsquery.parseFunctionClause`: dispatch on the (untrimmed)
function name; `blank[f]` becomes a `FileContents` clause with empty
contents, `random[i]` a `RandomSelection`; other names are an error. -/
def parseFunctionClause (clausestring : List Nat) : Except ParseErr ClauseKind := do
  let sf ← parseSimpleFunction clausestring
  if sf.functionName = blankName then
    match ← parseArgs sf.args ['f'] with
    | [.s v] => pure (.fileContents v [])
    | _ => throw .unknownArgCode
  else if sf.functionName = randomName then
    match ← parseArgs sf.args ['i'] with
    | [.i n] => pure (.random n)
    | _ => throw .unknownArgCode
  else throw .unknownFunction

/-- Go `qmfsquery.parseClause`: URL-decode, strip a leading `-` (recording
inversion), then dispatch: a `[` makes it a function clause, a `=` a
key/value content clause, otherwise a bare filename-existence clause. -/
def parseClause (clausestring : List Nat) : Except ParseErr Clause := do
  let unescaped ← pathUnescape clausestring
  let (cs, inv) :=
    if unescaped.head? = some 45 then (unescaped.drop 1, true)
    else (unescaped, false)
  if cs.contains 91 then do
    let kind ← parseFunctionClause cs
    pure ⟨inv, kind⟩
  else if cs.contains 61 then
    let i := cs.findIdx (fun b => b == 61)
    let fn := cs.take i
    let contents := cs.drop (i + 1)
    if ¬ ValidPath fn then throw .invalidPath
    else pure ⟨inv, .fileContents fn contents⟩
  else if ¬ ValidPath cs then throw .invalidPath
  else pure ⟨inv, .fileExists cs⟩

/-- Go `qmfsquery.Parse`: split the querystring into clause strings and
parse each in order. -/
def Parse (querystring : List Nat) : Except ParseErr (List Clause) := do
  let clausestrings ← splitQuerystring querystring
  clausestrings.mapM parseClause

/-- The surfacing of a parse failure on the query path
(`addRootNodesForNamespace` in the filesystem composer): any parse error is
reported as `InvalidArgument`. -/
def queryGet (querystring : List Nat) : Except qmfsdb.Code (List Clause) :=
  match Parse querystring with
  | .error _ => .error .invalidArgument
  | .ok q => .ok q

/-- The four failure causes named by the specification. -/
def specListedErrs : List ParseErr :=
  [.invalidPath, .unmatchedBracket, .unknownFunction, .wrongArgCount]

end qmfsquery

namespace atomicfilefuse

/-- An `AtomicWrite` issued to the storage layer: the data and the
revision argument. -/
structure WriteEffect where
  data : List Nat
  revision : List Nat
deriving DecidableEq

/-- The per-file `FileState`: the set of open handles (modelled by their
identifiers) and the `truncate` (lazily-truncated) flag. -/
structure FileRefs where
  handles : List Nat
  truncate : Bool
deriving DecidableEq

/-- Go `FileState.SetLazilyTruncated`: with no open handles, eagerly
truncate (`resizeFile(ctx, 0)`, which issues `AtomicWrite(nil, "")` — a
zero-length write with no revision); otherwise set the lazy-truncate flag.
The second component is the write issued to storage, if any. -/
def SetLazilyTruncated (st : FileRefs) : FileRefs × Option WriteEffect :=
  if st.handles = [] then (st, some { data := [], revision := [] })
  else ({ st with truncate := true }, none)

/-- The per-handle state of an open `Handle`. -/
structure HandleSt where
  lazy : Bool
  trueTruncate : Bool
  originalData : List Nat
  data : List Nat
  lastRevision : List Nat
  present : Bool
deriving DecidableEq

/-- Go `Handle.holdingLockEnsureFileWasRead`: a no-op unless the handle is
still lazy; otherwise read the file (`currentData`, `currentRevision`,
`present` are the result of `AtomicRead`), having first sampled the
file-level lazy-truncate flag (`truncated`).  A set flag upgrades an
absent file to present and empties the buffer, as does the handle's own
open-with-truncate flag. -/
def holdingLockEnsureFileWasRead (truncated : Bool) (h : HandleSt)
    (currentData currentRevision : List Nat) (present : Bool) : HandleSt :=
  if !h.lazy then h
  else
    let present2 := if !present && truncated then true else present
    let databuf := if truncated || h.trueTruncate then [] else currentData
    { h with
        originalData := currentData
        data := databuf
        lastRevision := currentRevision
        present := present2
        lazy := false }

/-- Go `FileState.RemoveRef`: delete the handle from the reference set;
if the set became empty while the lazy-truncate flag is set, perform the
last-minute truncate (`resizeFile(ctx, 0)`, a zero-length `AtomicWrite`
whose failure is only logged). -/
def RemoveRef (st : FileRefs) (h : Nat) : FileRefs × Option WriteEffect :=
  let m2 := st.handles.filter (fun x => !(x == h))
  if m2 = [] ∧ st.truncate then
    ({ st with handles := m2 }, some { data := [], revision := [] })
  else ({ st with handles := m2 }, none)

/-- Go `Handle.Release`: optionally flush (the outcome `flushResult` of
that flush is only logged, never returned), remove the handle from the
file's reference set, and return `nil` to the kernel.  The result carries
the new file state, any write issued by a last-minute truncate, and the
error returned to the kernel. -/
def Release (flushOnRelease : Bool) (flushResult : Except qmfsdb.Code Unit)
    (st : FileRefs) (h : Nat) : FileRefs × Option WriteEffect × Option qmfsdb.Code :=
  let r := RemoveRef st h
  (r.1, r.2, none)

end atomicfilefuse

/-! Concrete example inputs used by the witnesses and counterexamples. -/

def exKey : List Nat := [1]

def exNs : List Nat := []

def exEid : List Nat := [101]

def exFn : List Nat := [102]

def exGuid : List Nat := [103]

def exGuid2 : List Nat := [104]

def exShard1 : List Nat := (qmfsshard.Shard exKey exEid).getD 0 []

def exShard2 : List Nat := (qmfsshard.Shard exKey exEid).getD 1 []

/-- The row stored by a write of the single byte `a`. -/
def exRowA : qmfsdb.Row :=
  qmfsdb.insertedRow 7 exGuid exNs exEid exFn false [97] false exShard1 exShard2

/-- The row stored by a write of the single byte 0x85 (a Unicode
whitespace code point that is not valid UTF-8 as a lone byte). -/
def exRow133 : qmfsdb.Row :=
  qmfsdb.insertedRow 7 exGuid exNs exEid exFn false [133] false exShard1 exShard2

/-- The header returned by the write of `exRow133`. -/
def exHdr133 : qmfsdb.EntityFileHeader :=
  { ns := exNs
    entityId := exEid
    filename := exFn
    lastChanged := 7
    rowGuid := exGuid
    tombstone := false
    directory := false
    checksums := some (qmfsdb.computeFileMetadata [133]) }

def exData2 : List Nat := [32, 104, 32]

/-- The row stored by a write of `exData2`. -/
def exRow2 : qmfsdb.Row :=
  qmfsdb.insertedRow 7 exGuid exNs exEid exFn false exData2 false exShard1 exShard2

def exDb2 : List qmfsdb.Row := [exRow2]

/-- The header returned by the write of `exRow2`. -/
def exHdr2 : qmfsdb.EntityFileHeader :=
  { ns := exNs
    entityId := exEid
    filename := exFn
    lastChanged := 7
    rowGuid := exGuid
    tombstone := false
    directory := false
    checksums := some (qmfsdb.computeFileMetadata exData2) }

/-- The header returned by the coalesced (no-op) rewrite of `exRowA`. -/
def exHdrC4 : qmfsdb.EntityFileHeader :=
  { ns := exNs
    entityId := exEid
    filename := exFn
    lastChanged := 7
    rowGuid := exGuid
    tombstone := false
    directory := false
    checksums := some (qmfsdb.computeFileMetadata [97]) }

namespace qmfsdb

/-- A row whose content columns were produced by the write path from some
all-ASCII byte sequence `X`: the stored trimmed blob is the middle of the
whitespace partition of `X`, and the trimmed length and SHA-256 come from
`computeFileMetadata X`. -/
def rowFromWrite (r : Row) : Prop :=
  ∃ X : List Nat, (∀ b ∈ X, b < 128) ∧
    r.trimmedData = optOfList (partitionData X).2.1 ∧
    r.trimmedDataLength = some (computeFileMetadata X).trimmedLength ∧
    r.trimmedSha256Hash = some (computeFileMetadata X).trimmedSha256

end qmfsdb

/-- A directory row at the example key (`mkdir` stores `directory=1` with
empty data). -/
def exDirRow : qmfsdb.Row :=
  qmfsdb.insertedRow 7 exGuid exNs exEid exFn false [] true exShard1 exShard2

/-! Generic list lemmas used by the whitespace-partition proofs. -/

theorem list_dropWhile_head_false (p : Nat → Bool) (l : List Nat)
    (h : l.dropWhile p ≠ []) :
    ∃ a rest, l.dropWhile p = a :: rest ∧ p a = false := by
  induction l with
  | nil => simp at h
  | cons b t ih =>
    by_cases hb : p b
    · rw [List.dropWhile_cons, if_pos hb] at h ⊢
      exact ih h
    · refine ⟨b, t, ?_, by simp [hb]⟩
      rw [List.dropWhile_cons, if_neg hb]

theorem list_dropWhile_eq_drop (p : Nat → Bool) (l : List Nat) :
    l.dropWhile p = l.drop (l.takeWhile p).length := by
  induction l with
  | nil => simp
  | cons b t ih =>
    by_cases hb : p b
    · rw [List.dropWhile_cons, if_pos hb, List.takeWhile_cons, if_pos hb]
      simpa using ih
    · rw [List.dropWhile_cons, if_neg hb, List.takeWhile_cons, if_neg hb]
      simp

theorem list_takeWhile_append (p : Nat → Bool) (u v : List Nat)
    (h : u.dropWhile p ≠ []) :
    (u ++ v).takeWhile p = u.takeWhile p := by
  induction u with
  | nil => simp at h
  | cons b t ih =>
    by_cases hb : p b
    · rw [List.dropWhile_cons, if_pos hb] at h
      rw [List.cons_append, List.takeWhile_cons, if_pos hb,
        List.takeWhile_cons, if_pos hb, ih h]
    · rw [List.cons_append, List.takeWhile_cons, if_neg hb,
        List.takeWhile_cons, if_neg hb]

theorem list_dropWhile_append (p : Nat → Bool) (u v : List Nat)
    (h : u.dropWhile p ≠ []) :
    (u ++ v).dropWhile p = u.dropWhile p ++ v := by
  induction u with
  | nil => simp at h
  | cons b t ih =>
    by_cases hb : p b
    · rw [List.dropWhile_cons, if_pos hb] at h
      rw [List.cons_append, List.dropWhile_cons, if_pos hb,
        List.dropWhile_cons, if_pos hb, ih h]
    · rw [List.cons_append, List.dropWhile_cons, if_neg hb,
        List.dropWhile_cons, if_neg hb, List.cons_append]

theorem list_dropWhile_getLast? (p : Nat → Bool) (l : List Nat)
    (h : l.dropWhile p ≠ []) :
    (l.dropWhile p).getLast? = l.getLast? := by
  induction l with
  | nil => simp at h
  | cons b t ih =>
    by_cases hb : p b
    · rw [List.dropWhile_cons, if_pos hb] at h ⊢
      cases t with
      | nil => simp at h
      | cons c t2 =>
        rw [ih h, List.getLast?_cons_cons]
    · rw [List.dropWhile_cons, if_neg hb]

namespace qmfsdb

/-- Correctness of the forward scan: `firstNonSpaceIdx` finds exactly the
boundary between the whitespace lead (`takeWhile`) and the rest. -/
theorem firstNonSpaceIdx_spec (x : List Nat) :
    (firstNonSpaceIdx x = none → x.dropWhile qmfs.isSpaceRune = []) ∧
    (∀ i, firstNonSpaceIdx x = some i →
      x.take i = x.takeWhile qmfs.isSpaceRune ∧
      x.drop i = x.dropWhile qmfs.isSpaceRune ∧
      i = (x.takeWhile qmfs.isSpaceRune).length ∧
      x.dropWhile qmfs.isSpaceRune ≠ [] ∧ i < x.length) := by
  induction x with
  | nil => simp [firstNonSpaceIdx]
  | cons b t ih =>
    by_cases hb : qmfs.isSpaceRune b
    · constructor
      · intro hnone
        rw [firstNonSpaceIdx, if_pos hb] at hnone
        rw [List.dropWhile_cons, if_pos hb]
        exact ih.1 (by
          cases hft : firstNonSpaceIdx t with
          | none => rfl
          | some j => rw [hft] at hnone; simp at hnone)
      · intro i hi
        rw [firstNonSpaceIdx, if_pos hb] at hi
        cases hft : firstNonSpaceIdx t with
        | none => rw [hft] at hi; simp at hi
        | some j =>
          rw [hft] at hi
          have hi2 : i = j + 1 := by simpa using hi.symm
          obtain ⟨ht1, ht2, ht3, ht4, ht5⟩ := ih.2 j hft
          subst hi2
          refine ⟨?_, ?_, ?_, ?_, ?_⟩
          · rw [List.take_succ_cons, List.takeWhile_cons, if_pos hb, ht1]
          · rw [List.drop_succ_cons, List.dropWhile_cons, if_pos hb, ht2]
          · rw [List.takeWhile_cons, if_pos hb]
            simp [ht3]
          · rw [List.dropWhile_cons, if_pos hb]; exact ht4
          · simp; omega
    · constructor
      · intro hnone
        rw [firstNonSpaceIdx, if_neg hb] at hnone
        simp at hnone
      · intro i hi
        rw [firstNonSpaceIdx, if_neg hb] at hi
        simp only [Option.some.injEq] at hi
        subst hi
        have hbf : qmfs.isSpaceRune b = false := by simpa using hb
        exact ⟨by simp [hbf], by simp [hbf], by simp [hbf], by simp [hbf], by simp⟩

/-- The whitespace partition, re-expressed with `takeWhile`/`dropWhile`:
lead = longest whitespace run at the front, tail = longest whitespace run
at the back of the remainder, middle = what is left. -/
theorem partitionData_eq (x : List Nat) :
    partitionData x =
      (x.takeWhile qmfs.isSpaceRune,
       ((x.dropWhile qmfs.isSpaceRune).reverse.dropWhile qmfs.isSpaceRune).reverse,
       ((x.dropWhile qmfs.isSpaceRune).reverse.takeWhile qmfs.isSpaceRune).reverse) := by
  by_cases hx : x = []
  · subst hx; simp [partitionData]
  · unfold partitionData
    rw [if_neg hx]
    cases hf : firstNonSpaceIdx x with
    | none =>
      have hdw : x.dropWhile qmfs.isSpaceRune = [] := (firstNonSpaceIdx_spec x).1 hf
      have hall : ∀ b ∈ x, qmfs.isSpaceRune b := List.dropWhile_eq_nil_iff.mp hdw
      have htw : x.takeWhile qmfs.isSpaceRune = x := List.takeWhile_eq_self_iff.mpr hall
      cases hg : firstNonSpaceIdx x.reverse with
      | none => simp [lastNonSpaceIdx, hg, htw, hdw]
      | some j =>
        exfalso
        have := ((firstNonSpaceIdx_spec x.reverse).2 j hg).2.2.2.1
        exact this (List.dropWhile_eq_nil_iff.mpr (by
          intro b hb
          exact hall b (List.mem_reverse.mp hb)))
    | some i =>
      obtain ⟨hx1, hx2, hx3, hx4, hx5⟩ := (firstNonSpaceIdx_spec x).2 i hf
      cases hg : firstNonSpaceIdx x.reverse with
      | none =>
        exfalso
        have hdwr : x.reverse.dropWhile qmfs.isSpaceRune = [] :=
          (firstNonSpaceIdx_spec x.reverse).1 hg
        have hall : ∀ b ∈ x, qmfs.isSpaceRune b := by
          intro b hb
          exact List.dropWhile_eq_nil_iff.mp hdwr b (List.mem_reverse.mpr hb)
        exact hx4 (List.dropWhile_eq_nil_iff.mpr hall)
      | some j =>
        obtain ⟨hr1, hr2, hr3, hr4, hr5⟩ := (firstNonSpaceIdx_spec x.reverse).2 j hg
        rw [List.length_reverse] at hr5
        simp only [lastNonSpaceIdx, hg]
        -- name the pieces
        have hPD : x.takeWhile qmfs.isSpaceRune ++ x.dropWhile qmfs.isSpaceRune = x :=
          List.takeWhile_append_dropWhile ..
        have hlen : (x.takeWhile qmfs.isSpaceRune).length +
            (x.dropWhile qmfs.isSpaceRune).length = x.length := by
          rw [← List.length_append, hPD]
        -- the reversed remainder and its head
        obtain ⟨a, arest, hdwa, hpa⟩ := list_dropWhile_head_false qmfs.isSpaceRune x hx4
        have hmemD : a ∈ (x.dropWhile qmfs.isSpaceRune).reverse := by
          rw [hdwa]; simp
        have hDrevne : (x.dropWhile qmfs.isSpaceRune).reverse.dropWhile qmfs.isSpaceRune ≠ [] := by
          intro hnil
          have := List.dropWhile_eq_nil_iff.mp hnil a hmemD
          simp [hpa] at this
        have hRsplit : x.reverse =
            (x.dropWhile qmfs.isSpaceRune).reverse ++ (x.takeWhile qmfs.isSpaceRune).reverse := by
          rw [← List.reverse_append, hPD]
        have hRtake : x.reverse.takeWhile qmfs.isSpaceRune =
            (x.dropWhile qmfs.isSpaceRune).reverse.takeWhile qmfs.isSpaceRune := by
          rw [hRsplit]
          exact list_takeWhile_append _ _ _ hDrevne
        have hjD : j = ((x.dropWhile qmfs.isSpaceRune).reverse.takeWhile qmfs.isSpaceRune).length := by
          rw [hr3, hRtake]
        have hjle : j ≤ (x.dropWhile qmfs.isSpaceRune).length := by
          have h1 : ((x.dropWhile qmfs.isSpaceRune).reverse.takeWhile qmfs.isSpaceRune).length +
              ((x.dropWhile qmfs.isSpaceRune).reverse.dropWhile qmfs.isSpaceRune).length =
              (x.dropWhile qmfs.isSpaceRune).length := by
            rw [← List.length_append, List.takeWhile_append_dropWhile, List.length_reverse]
          omega
        have hsuf : x.length - 1 - (x.length - 1 - j) = j := by omega
        rw [hsuf]
        refine Prod.ext hx1 (Prod.ext ?_ ?_)
        · -- middle
          show (x.drop i).take (x.length - j - i) = _
          rw [hx2]
          have harith : x.length - j - i =
              (x.dropWhile qmfs.isSpaceRune).length - j := by omega
          rw [harith]
          have hdwdrop : (x.dropWhile qmfs.isSpaceRune).reverse.dropWhile qmfs.isSpaceRune =
              (x.dropWhile qmfs.isSpaceRune).reverse.drop j := by
            rw [list_dropWhile_eq_drop, ← hjD]
          rw [hdwdrop, List.reverse_drop, List.reverse_reverse, List.length_reverse]
        · -- tail
          show x.drop (x.length - j) = _
          have h1 : (x.drop (x.length - j)).reverse = x.reverse.take j := by
            rw [List.reverse_drop]
            congr 1
            omega
          have h2 : x.reverse.take j = x.reverse.takeWhile qmfs.isSpaceRune := hr1
          have h3 : (x.drop (x.length - j)).reverse.reverse =
              (x.reverse.takeWhile qmfs.isSpaceRune).reverse := by
            rw [h1, h2]
          rw [List.reverse_reverse] at h3
          rw [h3, hRtake]

end qmfsdb

theorem list_takeWhile_nil_of_head (p : Nat → Bool) (l : List Nat) (a : Nat)
    (h1 : l.head? = some a) (h2 : p a = false) :
    l.takeWhile p = [] := by
  cases l with
  | nil => simp at h1
  | cons b t =>
    simp only [List.head?_cons, Option.some.injEq] at h1
    subst h1
    rw [List.takeWhile_cons, if_neg (by simp [h2])]

namespace qmfsdb

/-- The three partition parts concatenate back to the input, for every
input. -/
theorem partition_concat (x : List Nat) :
    (partitionData x).1 ++ ((partitionData x).2.1 ++ (partitionData x).2.2) = x := by
  rw [partitionData_eq]
  show x.takeWhile qmfs.isSpaceRune ++ _ = x
  rw [← List.reverse_append, List.takeWhile_append_dropWhile, List.reverse_reverse,
    List.takeWhile_append_dropWhile]

/-- The middle partition part has no leading and no trailing whitespace
byte, for every input. -/
theorem partition_mid_noSpaceEnds (x : List Nat) :
    ((partitionData x).2.1).takeWhile qmfs.isSpaceRune = [] ∧
    ((partitionData x).2.1).reverse.takeWhile qmfs.isSpaceRune = [] := by
  rw [partitionData_eq]
  simp only
  by_cases hE : (x.dropWhile qmfs.isSpaceRune).reverse.dropWhile qmfs.isSpaceRune = []
  · simp [hE]
  · have hDne : x.dropWhile qmfs.isSpaceRune ≠ [] := by
      intro h0
      apply hE
      rw [h0]
      simp
    obtain ⟨a, arest, hdwa, hpa⟩ := list_dropWhile_head_false qmfs.isSpaceRune x hDne
    constructor
    · -- leading byte of the middle is the head of the trimmed remainder
      apply list_takeWhile_nil_of_head qmfs.isSpaceRune _ a _ hpa
      rw [List.head?_reverse, list_dropWhile_getLast? _ _ hE, List.getLast?_reverse, hdwa]
      simp
    · rw [List.reverse_reverse]
      obtain ⟨c, crest, hc, hpc⟩ :=
        list_dropWhile_head_false qmfs.isSpaceRune
          (x.dropWhile qmfs.isSpaceRune).reverse hE
      apply list_takeWhile_nil_of_head qmfs.isSpaceRune _ c _ hpc
      rw [hc]
      simp

end qmfsdb

namespace qmfs

theorem ascii_decode (b : Nat) (rest : List Nat) (hb : b < 128) :
    utf8DecodeRune (b :: rest) = (b, 1) := by
  simp only [utf8DecodeRune]
  rw [if_pos hb]

theorem utf8DecodeRune_size_pos (b : Nat) (rest : List Nat) :
    1 ≤ (utf8DecodeRune (b :: rest)).2 := by
  simp only [utf8DecodeRune]
  repeat' split
  all_goals simp

theorem utf8DecodeLastRune_size_pos (s : List Nat) (hs : s ≠ []) :
    1 ≤ (utf8DecodeLastRune s).2 := by
  have hlast : s.getLast? = some (s.getLast hs) := List.getLast?_eq_getLast _ _
  have hstart : lastRuneStart s < s.length := by
    have hn : 1 ≤ s.length := by
      cases s with
      | nil => exact absurd rfl hs
      | cons c cs => simp
    simp only [lastRuneStart]
    repeat' split
    all_goals omega
  unfold utf8DecodeLastRune
  rw [hlast]
  simp only
  split
  · omega
  · split
    · omega
    · simp

theorem utf8TrimLeftFuel_congr (fuel1 : Nat) : ∀ (fuel2 : Nat) (s : List Nat),
    s.length ≤ fuel1 → s.length ≤ fuel2 →
    utf8TrimLeftFuel fuel1 s = utf8TrimLeftFuel fuel2 s := by
  induction fuel1 with
  | zero =>
    intro fuel2 s h1 h2
    have hnil : s = [] := List.length_eq_zero.mp (Nat.le_zero.mp h1)
    subst hnil
    cases fuel2 <;> rfl
  | succ k ih =>
    intro fuel2 s h1 h2
    cases s with
    | nil => cases fuel2 <;> rfl
    | cons b rest =>
      cases fuel2 with
      | zero => simp at h2
      | succ m =>
        simp only [utf8TrimLeftFuel]
        by_cases hsp : isSpaceRune (utf8DecodeRune (b :: rest)).1
        · rw [if_pos hsp, if_pos hsp]
          have hk := utf8DecodeRune_size_pos b rest
          apply ih
          · simp only [List.length_drop, List.length_cons]
            simp only [List.length_cons] at h1
            omega
          · simp only [List.length_drop, List.length_cons]
            simp only [List.length_cons] at h2
            omega
        · rw [if_neg hsp, if_neg hsp]

theorem utf8TrimLeft_unfold (s : List Nat) :
    utf8TrimLeft s =
      if s = [] then []
      else
        if isSpaceRune (utf8DecodeRune s).1 then utf8TrimLeft (s.drop (utf8DecodeRune s).2)
        else s := by
  cases s with
  | nil => rfl
  | cons b rest =>
    rw [if_neg (List.cons_ne_nil b rest)]
    show utf8TrimLeftFuel (b :: rest).length (b :: rest) = _
    simp only [List.length_cons, utf8TrimLeftFuel]
    by_cases hsp : isSpaceRune (utf8DecodeRune (b :: rest)).1
    · rw [if_pos hsp, if_pos hsp]
      apply utf8TrimLeftFuel_congr
      · have hk := utf8DecodeRune_size_pos b rest
        simp only [List.length_drop, List.length_cons]
        omega
      · exact Nat.le_refl _
    · rw [if_neg hsp, if_neg hsp]

theorem utf8TrimRightFuel_congr (fuel1 : Nat) : ∀ (fuel2 : Nat) (s : List Nat),
    s.length ≤ fuel1 → s.length ≤ fuel2 →
    utf8TrimRightFuel fuel1 s = utf8TrimRightFuel fuel2 s := by
  induction fuel1 with
  | zero =>
    intro fuel2 s h1 h2
    have hnil : s = [] := List.length_eq_zero.mp (Nat.le_zero.mp h1)
    subst hnil
    cases fuel2 <;> rfl
  | succ k ih =>
    intro fuel2 s h1 h2
    cases s with
    | nil => cases fuel2 <;> rfl
    | cons b rest =>
      cases fuel2 with
      | zero => simp at h2
      | succ m =>
        simp only [utf8TrimRightFuel]
        by_cases hsp : isSpaceRune (utf8DecodeLastRune (b :: rest)).1
        · rw [if_pos hsp, if_pos hsp]
          have hk := utf8DecodeLastRune_size_pos (b :: rest) (List.cons_ne_nil b rest)
          apply ih
          · simp only [List.length_take, List.length_cons]
            simp only [List.length_cons] at h1
            omega
          · simp only [List.length_take, List.length_cons]
            simp only [List.length_cons] at h2
            omega
        · rw [if_neg hsp, if_neg hsp]

theorem utf8TrimRight_unfold (s : List Nat) :
    utf8TrimRight s =
      if s = [] then []
      else
        if isSpaceRune (utf8DecodeLastRune s).1 then
          utf8TrimRight (s.take (s.length - (utf8DecodeLastRune s).2))
        else s := by
  cases s with
  | nil => rfl
  | cons b rest =>
    rw [if_neg (List.cons_ne_nil b rest)]
    show utf8TrimRightFuel (b :: rest).length (b :: rest) = _
    simp only [List.length_cons, utf8TrimRightFuel]
    by_cases hsp : isSpaceRune (utf8DecodeLastRune (b :: rest)).1
    · rw [if_pos hsp, if_pos hsp]
      apply utf8TrimRightFuel_congr
      · have hk := utf8DecodeLastRune_size_pos (b :: rest) (List.cons_ne_nil b rest)
        simp only [List.length_take, List.length_cons]
        omega
      · exact Nat.le_refl _
    · rw [if_neg hsp, if_neg hsp]

theorem ascii_trimLeft (x : List Nat) (h : ∀ b ∈ x, b < 128) :
    utf8TrimLeft x = x.dropWhile isSpaceRune := by
  induction x with
  | nil => rw [utf8TrimLeft_unfold]; simp
  | cons b t ih =>
    have hb : b < 128 := h b (by simp)
    rw [utf8TrimLeft_unfold, if_neg (List.cons_ne_nil b t), ascii_decode b t hb]
    by_cases hsb : isSpaceRune b
    · rw [if_pos (by simpa using hsb), List.dropWhile_cons, if_pos hsb]
      exact ih (fun c hc => h c (by simp [hc]))
    · rw [if_neg (by simpa using hsb), List.dropWhile_cons, if_neg hsb]

theorem ascii_decodeLast (x : List Nat) (hx : x ≠ []) (h : ∀ b ∈ x, b < 128) :
    utf8DecodeLastRune x = (x.getLast hx, 1) := by
  unfold utf8DecodeLastRune
  rw [List.getLast?_eq_getLast x hx]
  simp only
  rw [if_pos (h _ (List.getLast_mem hx))]

theorem ascii_trimRight (x : List Nat) (h : ∀ b ∈ x, b < 128) :
    utf8TrimRight x = (x.reverse.dropWhile isSpaceRune).reverse := by
  induction x using List.reverseRecOn with
  | nil => rw [utf8TrimRight_unfold]; simp
  | append_singleton l a ih =>
    have ha : a < 128 := h a (by simp)
    have hne : l ++ [a] ≠ [] := by simp
    have hdec := ascii_decodeLast (l ++ [a]) hne h
    have hlast : (l ++ [a]).getLast hne = a := List.getLast_concat l
    rw [hlast] at hdec
    have hrev : (l ++ [a]).reverse = a :: l.reverse := by simp
    rw [utf8TrimRight_unfold, if_neg hne, hdec]
    by_cases hsa : isSpaceRune a
    · rw [if_pos (by simpa using hsa)]
      have htake : (l ++ [a]).take ((l ++ [a]).length - 1) = l := by
        rw [show (l ++ [a]).length - 1 = l.length by simp]
        exact List.take_left ..
      rw [htake, ih (fun c hc => h c (by simp [hc])), hrev,
        List.dropWhile_cons, if_pos hsa]
    · rw [if_neg (by simpa using hsa), hrev, List.dropWhile_cons, if_neg hsa]
      simp

/-- On ASCII input, `strings.TrimSpace` computes exactly the middle part of
the byte-level whitespace partition. -/
theorem ascii_goTrimSpace (x : List Nat) (h : ∀ b ∈ x, b < 128) :
    goTrimSpace x = (qmfsdb.partitionData x).2.1 := by
  have hsub : ∀ b ∈ x.dropWhile isSpaceRune, b < 128 := by
    intro b hb
    rw [list_dropWhile_eq_drop] at hb
    exact h b (List.mem_of_mem_drop hb)
  rw [show goTrimSpace x = utf8TrimRight (utf8TrimLeft x) from rfl,
    ascii_trimLeft x h, ascii_trimRight _ hsub, qmfsdb.partitionData_eq]

/-- An ASCII byte string with no whitespace byte at either end is a fixed
point of `strings.TrimSpace`. -/
theorem goTrimSpace_fixpoint (v : List Nat) (h : ∀ b ∈ v, b < 128)
    (h1 : v.takeWhile isSpaceRune = []) (h2 : v.reverse.takeWhile isSpaceRune = []) :
    goTrimSpace v = v := by
  have e1 : v.dropWhile isSpaceRune = v := by
    rw [list_dropWhile_eq_drop, h1]
    simp
  have e2 : v.reverse.dropWhile isSpaceRune = v.reverse := by
    rw [list_dropWhile_eq_drop, h2]
    simp
  have hsub : ∀ b ∈ v.dropWhile isSpaceRune, b < 128 := by
    rw [e1]; exact h
  rw [show goTrimSpace v = utf8TrimRight (utf8TrimLeft v) from rfl,
    ascii_trimLeft v h, ascii_trimRight _ hsub, e1, e2, List.reverse_reverse]

end qmfs

namespace qmfsdb

/-- Bytes of the middle partition part come from the input. -/
theorem mem_of_mem_mid (x : List Nat) (b : Nat) (hb : b ∈ (partitionData x).2.1) :
    b ∈ x := by
  rw [← partition_concat x]
  exact List.mem_append.mpr (Or.inr (List.mem_append.mpr (Or.inl hb)))

theorem optOfList_getD (l : List Nat) : (optOfList l).getD [] = l := by
  unfold optOfList
  split <;> simp_all

theorem optOfList_eq_some_iff (l v : List Nat) :
    optOfList l = some v ↔ l = v ∧ l ≠ [] := by
  unfold optOfList
  split <;> simp_all

theorem sqlEqBlob_true_iff (col param : Option (List Nat)) :
    sqlEqBlob col param = true ↔ ∃ c, col = some c ∧ param = some c := by
  cases col <;> cases param <;> simp [sqlEqBlob]
  exact eq_comm

theorem sqlEqNat_true_iff (col : Option Nat) (param : Nat) :
    sqlEqNat col param = true ↔ col = some param := by
  cases col <;> simp [sqlEqNat]

end qmfsdb

namespace qmfsdb

/-- `hasDataEqualTo` holds exactly when the three stored segments
concatenate to the incoming bytes. -/
theorem hasDataEqualTo_iff (f : Row) (data : List Nat) :
    hasDataEqualTo f data = true ↔
      f.wsPre.getD [] ++ (f.trimmedData.getD [] ++ f.wsSuf.getD []) = data := by
  simp only [hasDataEqualTo]
  split_ifs with h1 h2 h3 h4
  · simp only [Bool.false_eq_true, false_iff]
    intro hc
    have := congrArg List.length hc
    simp only [List.length_append] at this
    exact h1 (by omega)
  · simp only [Bool.false_eq_true, false_iff]
    intro hc
    exact h2 (by rw [← hc]; exact (List.take_left ..).symm)
  · simp only [Bool.false_eq_true, false_iff]
    intro hc
    apply h3
    rw [← hc]
    have hidx : (f.wsPre.getD [] ++ (f.trimmedData.getD [] ++ f.wsSuf.getD [])).length -
        (f.wsSuf.getD []).length = (f.wsPre.getD [] ++ f.trimmedData.getD []).length := by
      simp only [List.length_append]
      omega
    rw [hidx, ← List.append_assoc]
    exact (List.drop_left ..).symm
  · simp only [Bool.false_eq_true, false_iff]
    intro hc
    apply h4
    rw [← hc]
    have hd : (f.wsPre.getD [] ++ (f.trimmedData.getD [] ++ f.wsSuf.getD [])).drop
        (f.wsPre.getD []).length = f.trimmedData.getD [] ++ f.wsSuf.getD [] :=
      List.drop_left ..
    have hidx : (f.wsPre.getD [] ++ (f.trimmedData.getD [] ++ f.wsSuf.getD [])).length -
        (f.wsSuf.getD []).length - (f.wsPre.getD []).length =
        (f.trimmedData.getD []).length := by
      simp only [List.length_append]
      omega
    rw [hd, hidx]
    exact (List.take_left ..).symm
  · simp only [true_iff]
    have h1' := not_ne_iff.mp h1
    have h2' := not_ne_iff.mp h2
    have h3' := not_ne_iff.mp h3
    have h4' := not_ne_iff.mp h4
    have hdd : (data.drop (f.wsPre.getD []).length).drop
        (data.length - (f.wsSuf.getD []).length - (f.wsPre.getD []).length) =
        data.drop (data.length - (f.wsSuf.getD []).length) := by
      rw [List.drop_drop]
      congr 1
      omega
    calc f.wsPre.getD [] ++ (f.trimmedData.getD [] ++ f.wsSuf.getD [])
        = data.take (f.wsPre.getD []).length ++
            ((data.drop (f.wsPre.getD []).length).take
              (data.length - (f.wsSuf.getD []).length - (f.wsPre.getD []).length) ++
             data.drop (data.length - (f.wsSuf.getD []).length)) := by
          rw [← h2', ← h4', ← h3']
      _ = data.take (f.wsPre.getD []).length ++
            ((data.drop (f.wsPre.getD []).length).take
              (data.length - (f.wsSuf.getD []).length - (f.wsPre.getD []).length) ++
             (data.drop (f.wsPre.getD []).length).drop
              (data.length - (f.wsSuf.getD []).length - (f.wsPre.getD []).length)) := by
          rw [hdd]
      _ = data.take (f.wsPre.getD []).length ++ data.drop (f.wsPre.getD []).length := by
          rw [List.take_append_drop]
      _ = data := List.take_append_drop ..

/-- After marking the old rows inactive and inserting the new row, the new
row is the unique current row the read query finds. -/
theorem findCurrentRow_insert (db : List Row) (ns eid fn : List Nat) (r : Row)
    (hr : currentRowPred ns eid fn r = true) :
    findCurrentRow (markOldRowsInactive db ns eid fn ++ [r]) ns eid fn = some r := by
  unfold findCurrentRow
  rw [List.find?_append]
  have h1 : (markOldRowsInactive db ns eid fn).find? (currentRowPred ns eid fn) = none := by
    rw [List.find?_eq_none]
    intro x hx
    unfold markOldRowsInactive at hx
    obtain ⟨r0, hr0, hfx⟩ := List.mem_map.mp hx
    by_cases hcase : (r0.entityId == eid && r0.filename == fn && r0.ns == ns) = true
    · rw [if_pos hcase] at hfx
      subst hfx
      simp [currentRowPred]
    · rw [if_neg hcase] at hfx
      subst hfx
      simp only [Bool.and_eq_true, beq_iff_eq, not_and] at hcase
      simp only [currentRowPred, Bool.and_eq_true, beq_iff_eq, Bool.not_eq_true']
      tauto
  rw [h1]
  simp [List.find?_cons, hr]

end qmfsdb

namespace gosha256

theorem toBytesBE_length (n v : Nat) : (toBytesBE n v).length = n := by
  induction n generalizing v with
  | zero => simp [toBytesBE]
  | succ k ih => simp [toBytesBE, ih]

/-- The digest always has 32 bytes, whatever the input. -/
theorem sha256_length (msg : List Nat) : (sha256 msg).length = 32 := by
  unfold sha256 digestBytes
  simp [toBytesBE_length]

end gosha256

namespace qmfsshard

theorem hexDigest_length (bs : List Nat) : (hexDigest bs).length = 2 * bs.length := by
  induction bs with
  | nil => simp [hexDigest]
  | cons b t ih =>
    simp only [hexDigest, List.flatMap_cons] at ih ⊢
    simp only [List.length_append, List.length_cons, List.length_nil, ih]
    omega

end qmfsshard

/-- Claim C9: for every key and entity ID, `Shard(key, entityID)` returns
exactly two two-character strings: the first two and the next two hex
digits of the lowercase hexadecimal SHA-256 digest of `key ++ entityID`;
the result is a pure, deterministic function of its arguments. -/
theorem claim_C9_thm (key entityID : List Nat) :
    qmfsshard.Shard key entityID =
      [(qmfsshard.hexDigest (gosha256.sha256 (key ++ entityID))).take 2,
       ((qmfsshard.hexDigest (gosha256.sha256 (key ++ entityID))).drop 2).take 2] ∧
    (qmfsshard.Shard key entityID).map List.length = [2, 2] := by
  constructor
  · rfl
  · have hlen : (qmfsshard.hexDigest (gosha256.sha256 (key ++ entityID))).length = 64 := by
      rw [qmfsshard.hexDigest_length, gosha256.sha256_length]
    simp [qmfsshard.Shard, List.length_take, List.length_drop, hlen]

/-- Claim C6: a `Setattr` resize to size 0 (`SetLazilyTruncated`) eagerly
issues a zero-length `AtomicWrite` when there are no open handles and
otherwise only sets the `lazily_truncated` flag; a handle whose first lazy
read happens while the flag is set observes an empty buffer with
`present = true`; a handle that already performed its read is unaffected. -/
theorem claim_C6_thm (st : atomicfilefuse.FileRefs) (h : atomicfilefuse.HandleSt)
    (cd cr : List Nat) (pr : Bool) :
    (st.handles = [] →
      atomicfilefuse.SetLazilyTruncated st = (st, some { data := [], revision := [] }) ∧
      (some { data := [], revision := [] } :
        Option atomicfilefuse.WriteEffect).all (fun e => e.data.length == 0) = true) ∧
    (st.handles ≠ [] →
      atomicfilefuse.SetLazilyTruncated st = ({ st with truncate := true }, none)) ∧
    (h.lazy = true →
      (atomicfilefuse.holdingLockEnsureFileWasRead true h cd cr pr).data = [] ∧
      (atomicfilefuse.holdingLockEnsureFileWasRead true h cd cr pr).present = true) ∧
    (h.lazy = false → ∀ tr, atomicfilefuse.holdingLockEnsureFileWasRead tr h cd cr pr = h) := by
  refine ⟨?_, ?_, ?_, ?_⟩
  · intro hempty
    constructor
    · simp [atomicfilefuse.SetLazilyTruncated, hempty]
    · rfl
  · intro hne
    simp [atomicfilefuse.SetLazilyTruncated, hne]
  · intro hlazy
    constructor
    · simp [atomicfilefuse.holdingLockEnsureFileWasRead, hlazy]
    · cases pr <;> simp [atomicfilefuse.holdingLockEnsureFileWasRead, hlazy]
  · intro hnl tr
    simp [atomicfilefuse.holdingLockEnsureFileWasRead, hnl]

/-- Claim C6 witness: concrete instances of all four parts. -/
theorem claim_C6_witness :
    atomicfilefuse.SetLazilyTruncated ⟨[], false⟩ = (⟨[], false⟩, some ⟨[], []⟩) ∧
    atomicfilefuse.SetLazilyTruncated ⟨[5], false⟩ = (⟨[5], true⟩, none) ∧
    (atomicfilefuse.holdingLockEnsureFileWasRead true ⟨true, false, [], [7], [], false⟩
      [1, 2] [9] false).data = [] ∧
    (atomicfilefuse.holdingLockEnsureFileWasRead true ⟨true, false, [], [7], [], false⟩
      [1, 2] [9] false).present = true ∧
    atomicfilefuse.holdingLockEnsureFileWasRead false ⟨false, false, [3], [3], [8], true⟩
      [1, 2] [9] false = ⟨false, false, [3], [3], [8], true⟩ :=
  ⟨((claim_C6_thm ⟨[], false⟩ ⟨true, false, [], [7], [], false⟩ [1, 2] [9] false).1 rfl).1,
   (claim_C6_thm ⟨[5], false⟩ ⟨true, false, [], [7], [], false⟩ [1, 2] [9] false).2.1
     (by decide),
   ((claim_C6_thm ⟨[], false⟩ ⟨true, false, [], [7], [], false⟩ [1, 2] [9] false).2.2.1 rfl).1,
   ((claim_C6_thm ⟨[], false⟩ ⟨true, false, [], [7], [], false⟩ [1, 2] [9] false).2.2.1 rfl).2,
   (claim_C6_thm ⟨[], false⟩ ⟨false, false, [3], [3], [8], true⟩ [1, 2] [9] false).2.2.2
     rfl false⟩

/-- Claim C10: `Handle.Release` always returns `nil` to the kernel — any
flush failure is only logged — and the handle is removed from the file's
reference set regardless. -/
theorem claim_C10_thm (flushOnRelease : Bool) (flushResult : Except qmfsdb.Code Unit)
    (st : atomicfilefuse.FileRefs) (hid : Nat) :
    (atomicfilefuse.Release flushOnRelease flushResult st hid).2.2 = none ∧
    ((atomicfilefuse.Release flushOnRelease flushResult st hid).1.handles.contains hid)
      = false := by
  constructor
  · rfl
  · simp only [atomicfilefuse.Release, atomicfilefuse.RemoveRef]
    split
    · rw [Bool.eq_false_iff]
      intro hcon
      have hm := List.mem_filter.mp (List.mem_of_elem_eq_true hcon)
      simp at hm
    · rw [Bool.eq_false_iff]
      intro hcon
      have hm := List.mem_filter.mp (List.mem_of_elem_eq_true hcon)
      simp at hm

/-- Claim C5 (amended): under the argument validations performed before the
transaction (non-empty entity ID and filename, sharding key present, not
both data and tombstone), a non-empty `oldRevision` differing from the
current row GUID — the empty string when no current row exists — makes
`writeOrDeleteFile` fail with `FailedPrecondition`; the error return leaves
the table unchanged (the transaction aborts). -/
theorem claim_C5_thm (shardingKey : List Nat) (db : List qmfsdb.Row) (t : Int)
    (rowGUID ns eid fn oldRev : List Nat) (tombstone : Bool) (data : List Nat)
    (directory : Bool) (rt : qmfsdb.DeletionType)
    (he : eid ≠ []) (hf : fn ≠ []) (hk : shardingKey ≠ [])
    (hd : ¬(data.length > 0 ∧ tombstone = true))
    (ho : oldRev ≠ []) (hm : oldRev ≠ qmfsdb.currentRowGuid db ns eid fn) :
    qmfsdb.writeOrDeleteFile shardingKey db t rowGUID ns eid fn oldRev tombstone data
      directory rt = .error .failedPrecondition := by
  have hk0 : ¬(shardingKey.length = 0) := fun h0 => hk (List.length_eq_zero.mp h0)
  simp only [qmfsdb.writeOrDeleteFile]
  rw [if_neg hd, if_neg he, if_neg hk0, if_neg (by simp [qmfsshard.Shard]), if_neg hf]
  split
  · rfl
  · rw [if_pos ⟨ho, hm⟩]

/-- Claim C5 witness: a conflicting revision against an empty table fails
with `FailedPrecondition`. -/
theorem claim_C5_witness :
    qmfsdb.writeOrDeleteFile exKey [] 7 exGuid exNs exEid exFn [103] false [] false
      .deleteAny = .error .failedPrecondition :=
  claim_C5_thm exKey [] 7 exGuid exNs exEid exFn [103] false [] false .deleteAny
    (by decide) (by decide) (by decide) (by decide) (by decide) (by decide)

/-- Claim C5 counterexample: with an empty entity ID the same conflicting
revision fails with `InvalidArgument`, not `FailedPrecondition`, so the
claim as stated (quantifying over every call) does not hold. -/
theorem claim_C5_counterexample :
    qmfsdb.writeOrDeleteFile exKey [] 7 exGuid exNs [] exFn [103] false [] false
      .deleteAny = .error .invalidArgument ∧
    (qmfsdb.Code.invalidArgument == qmfsdb.Code.failedPrecondition) = false ∧
    (([103] : List Nat) == []) = false ∧
    (([103] : List Nat) == qmfsdb.currentRowGuid [] exNs [] exFn) = false := by
  refine ⟨by decide, by decide, by decide, by decide⟩

/-- Claim C3 (amended): for a write of ASCII data (every byte below 0x80),
the inserted row's `trimmed_sha256` is the SHA-256 of the stored
`trimmed_data`, its `trimmed_data_length` is the stored length, and the
stored `trimmed_data` has no leading or trailing whitespace byte (the last
property holds for arbitrary bytes as well; the first two can fail on
non-UTF-8 input because the checksums trim with `strings.TrimSpace` while
the stored blob is trimmed byte-wise). -/
theorem claim_C3_thm (t : Int) (rowGUID ns eid fn : List Nat) (directory : Bool)
    (s1 s2 : List Nat) (data : List Nat) (hascii : ∀ b ∈ data, b < 128) :
    (qmfsdb.insertedRow t rowGUID ns eid fn false data directory s1 s2).trimmedSha256Hash =
      some (gosha256.sha256
        ((qmfsdb.insertedRow t rowGUID ns eid fn false data directory s1 s2).trimmedData.getD
          [])) ∧
    (qmfsdb.insertedRow t rowGUID ns eid fn false data directory s1 s2).trimmedDataLength =
      some ((qmfsdb.insertedRow t rowGUID ns eid fn false data directory
        s1 s2).trimmedData.getD []).length ∧
    ((qmfsdb.insertedRow t rowGUID ns eid fn false data directory
      s1 s2).trimmedData.getD []).takeWhile qmfs.isSpaceRune = [] ∧
    ((qmfsdb.insertedRow t rowGUID ns eid fn false data directory
      s1 s2).trimmedData.getD []).reverse.takeWhile qmfs.isSpaceRune = [] := by
  have hgetD : (qmfsdb.insertedRow t rowGUID ns eid fn false data directory
      s1 s2).trimmedData.getD [] = (qmfsdb.partitionData data).2.1 := by
    simp [qmfsdb.insertedRow, qmfsdb.optOfList_getD]
  refine ⟨?_, ?_, ?_, ?_⟩
  · rw [hgetD]
    show some (qmfsdb.computeFileMetadata data).trimmedSha256 = _
    rw [show (qmfsdb.computeFileMetadata data).trimmedSha256 =
      gosha256.sha256 (qmfs.goTrimSpace data) from rfl, qmfs.ascii_goTrimSpace data hascii]
  · rw [hgetD]
    show some (qmfsdb.computeFileMetadata data).trimmedLength = _
    rw [show (qmfsdb.computeFileMetadata data).trimmedLength =
      (qmfs.goTrimSpace data).length from rfl, qmfs.ascii_goTrimSpace data hascii]
  · rw [hgetD]
    exact (qmfsdb.partition_mid_noSpaceEnds data).1
  · rw [hgetD]
    exact (qmfsdb.partition_mid_noSpaceEnds data).2

/-- Claim C3 witness: the three properties at a concrete ASCII write. -/
theorem claim_C3_witness :
    (qmfsdb.insertedRow 7 exGuid exNs exEid exFn false [32, 97, 32] false
      exShard1 exShard2).trimmedSha256Hash =
      some (gosha256.sha256
        ((qmfsdb.insertedRow 7 exGuid exNs exEid exFn false [32, 97, 32] false
          exShard1 exShard2).trimmedData.getD [])) ∧
    (qmfsdb.insertedRow 7 exGuid exNs exEid exFn false [32, 97, 32] false
      exShard1 exShard2).trimmedDataLength =
      some ((qmfsdb.insertedRow 7 exGuid exNs exEid exFn false [32, 97, 32] false
        exShard1 exShard2).trimmedData.getD []).length ∧
    ((qmfsdb.insertedRow 7 exGuid exNs exEid exFn false [32, 97, 32] false
      exShard1 exShard2).trimmedData.getD []).takeWhile qmfs.isSpaceRune = [] ∧
    ((qmfsdb.insertedRow 7 exGuid exNs exEid exFn false [32, 97, 32] false
      exShard1 exShard2).trimmedData.getD []).reverse.takeWhile qmfs.isSpaceRune = [] :=
  claim_C3_thm 7 exGuid exNs exEid exFn false exShard1 exShard2 [32, 97, 32] (by decide)

set_option maxRecDepth 4000 in
/-- Claim C3 counterexample: writing the single byte 0x85 (a Unicode
whitespace code point, but not valid UTF-8 as a lone byte) inserts a row
whose stored `trimmed_data` is empty (byte-wise trim) while
`trimmed_data_length` is 1 (`strings.TrimSpace` trims nothing), refuting
the claim for arbitrary byte sequences. -/
theorem claim_C3_counterexample :
    qmfsdb.writeOrDeleteFile exKey [] 7 exGuid exNs exEid exFn [] false [133] false
      .deleteFile = .ok (exHdr133, [exRow133], true) ∧
    (exRow133.trimmedDataLength ==
      some (exRow133.trimmedData.getD []).length) = false := by
  constructor
  · decide
  · decide

/-- Reading back immediately after the insert path of a non-tombstone
write returns exactly the written bytes. -/
theorem readFile_after_insert (db : List qmfsdb.Row) (ns eid fn : List Nat) (t : Int)
    (rowGUID data s1 s2 : List Nat) (directory : Bool)
    (hne : ¬(eid = [])) (hfn : ¬(fn = [])) :
    qmfsdb.readFileData (qmfsdb.markOldRowsInactive db ns eid fn ++
      [qmfsdb.insertedRow t rowGUID ns eid fn false data directory s1 s2]) ns eid fn
      = .ok data := by
  have hpred : qmfsdb.currentRowPred ns eid fn
      (qmfsdb.insertedRow t rowGUID ns eid fn false data directory s1 s2) = true := by
    simp [qmfsdb.currentRowPred, qmfsdb.insertedRow]
  unfold qmfsdb.readFileData qmfsdb.ReadFile
  rw [if_neg hne, if_neg hfn, qmfsdb.findCurrentRow_insert db ns eid fn _ hpred]
  simp only [Except.map, qmfsdb.insertedRow, qmfsdb.optOfList_getD, Except.ok.injEq]
  exact qmfsdb.partition_concat data

set_option maxHeartbeats 3200000 in
/-- A successful non-tombstone `writeOrDeleteFile` (any replace type)
leaves a table from which `ReadFile` returns exactly the written bytes. -/
theorem writeOrDelete_readback (shardingKey : List Nat) (db : List qmfsdb.Row) (t : Int)
    (rowGUID ns eid fn oldRev data : List Nat) (directory : Bool) (rt : qmfsdb.DeletionType)
    (hdr : qmfsdb.EntityFileHeader) (db' : List qmfsdb.Row) (ch : Bool)
    (h : qmfsdb.writeOrDeleteFile shardingKey db t rowGUID ns eid fn oldRev false data
      directory rt = .ok (hdr, db', ch)) :
    qmfsdb.readFileData db' ns eid fn = .ok data := by
  simp only [qmfsdb.writeOrDeleteFile] at h
  split at h
  · simp at h
  split at h
  · simp at h
  rename_i hne
  split at h
  · simp at h
  split at h
  · simp at h
  split at h
  · simp at h
  rename_i hfn
  split at h
  · simp at h
  split at h
  · simp at h
  split at h
  · simp at h
  split at h
  · -- a current row exists
    rename_i prev hcur
    split at h
    · -- no-op coalesce: the read sees the same previous row
      rename_i hcoal
      simp only [Except.ok.injEq, Prod.mk.injEq] at h
      obtain ⟨hh, hdb, hch⟩ := h
      subst hdb
      have hde : qmfsdb.hasDataEqualTo prev data = true := by simpa using hcoal
      unfold qmfsdb.readFileData qmfsdb.ReadFile
      rw [if_neg hne, if_neg hfn, hcur]
      simp [Except.map, (qmfsdb.hasDataEqualTo_iff prev data).mp hde]
    · -- insert path
      simp only [Except.ok.injEq, Prod.mk.injEq] at h
      obtain ⟨hh, hdb, hch⟩ := h
      subst hdb
      exact readFile_after_insert db ns eid fn t rowGUID data _ _ directory hne hfn
  · -- no current row: insert path
    simp only [Except.ok.injEq, Prod.mk.injEq] at h
    obtain ⟨hh, hdb, hch⟩ := h
    subst hdb
    exact readFile_after_insert db ns eid fn t rowGUID data _ _ directory hne hfn

/-- Claim C2: a successful `WriteFile` of any byte sequence followed by
`ReadFile` of the same key returns exactly the written bytes, and the
whitespace partition computed at write time concatenates back to the
written bytes for every input (all-whitespace, empty and binary data
included). -/
theorem claim_C2_thm (shardingKey : List Nat) (db : List qmfsdb.Row) (t : Int)
    (rowGUID ns eid fn oldRev data : List Nat) (directory : Bool)
    (hdr : qmfsdb.EntityFileHeader) (db' : List qmfsdb.Row) (ch : Bool)
    (h : qmfsdb.WriteFile shardingKey db t rowGUID ns eid fn oldRev data directory
      = .ok (hdr, db', ch)) :
    qmfsdb.readFileData db' ns eid fn = .ok data ∧
    (qmfsdb.partitionData data).1 ++
      ((qmfsdb.partitionData data).2.1 ++ (qmfsdb.partitionData data).2.2) = data := by
  refine ⟨?_, qmfsdb.partition_concat data⟩
  simp only [qmfsdb.WriteFile] at h
  split at h
  · simp at h
  split at h
  · simp at h
  exact writeOrDelete_readback shardingKey db t rowGUID ns eid fn oldRev data directory
    _ hdr db' ch h

set_option maxRecDepth 4000 in
/-- Claim C2 witness: writing `" h "` into an empty table and reading it
back returns the same bytes. -/
theorem claim_C2_witness :
    qmfsdb.readFileData exDb2 exNs exEid exFn = .ok exData2 ∧
    (qmfsdb.partitionData exData2).1 ++
      ((qmfsdb.partitionData exData2).2.1 ++ (qmfsdb.partitionData exData2).2.2) = exData2 :=
  claim_C2_thm exKey [] 7 exGuid exNs exEid exFn [] exData2 false exHdr2 exDb2 true
    (by decide)

set_option maxHeartbeats 3200000 in
/-- Claim C4: a non-tombstone write over a current active non-tombstone
row whose stored bytes (prefix ++ trimmed ++ suffix) equal the incoming
data byte-for-byte returns the existing row GUID and timestamp unchanged,
leaves the table untouched (no insert, no deactivation), and reports
`actuallyChanging = false`, so the change hook does not fire. -/
theorem claim_C4_thm (shardingKey : List Nat) (db : List qmfsdb.Row) (t : Int)
    (rowGUID ns eid fn oldRev data : List Nat) (directory : Bool)
    (rt : qmfsdb.DeletionType) (prev : qmfsdb.Row) (hdr : qmfsdb.EntityFileHeader)
    (db' : List qmfsdb.Row) (ch : Bool)
    (hcur : qmfsdb.findCurrentRow db ns eid fn = some prev)
    (hde : qmfsdb.hasDataEqualTo prev data = true)
    (h : qmfsdb.writeOrDeleteFile shardingKey db t rowGUID ns eid fn oldRev false data
      directory rt = .ok (hdr, db', ch)) :
    hdr.rowGuid = prev.rowGuid ∧ hdr.lastChanged = prev.timestampUnixNano ∧
    db' = db ∧ ch = false := by
  simp only [qmfsdb.writeOrDeleteFile] at h
  split at h
  · simp at h
  split at h
  · simp at h
  split at h
  · simp at h
  split at h
  · simp at h
  split at h
  · simp at h
  split at h
  · simp at h
  split at h
  · simp at h
  split at h
  · simp at h
  split at h
  · -- the match sees the current row
    rename_i prev2 hcur2
    rw [hcur] at hcur2
    have hpe : prev = prev2 := by simpa using hcur2
    subst hpe
    split at h
    · -- coalesce branch: the returned header carries the old GUID and time
      simp only [Except.ok.injEq, Prod.mk.injEq] at h
      obtain ⟨hh, hdb, hch⟩ := h
      subst hh hdb hch
      exact ⟨rfl, rfl, rfl, rfl⟩
    · -- insert branch is impossible: the data comparison succeeded
      rename_i hncoal
      simp [hde] at hncoal
  · -- the no-current-row branch contradicts `hcur`
    rename_i hcur2
    rw [hcur] at hcur2
    simp at hcur2

set_option maxRecDepth 4000 in
/-- Claim C4 witness: rewriting the stored byte `a` over `exRowA` with a
fresh GUID and a later timestamp returns the old GUID `exGuid` and the old
timestamp `7`, keeps the table equal to `[exRowA]`, and reports no
change. -/
theorem claim_C4_witness :
    exHdrC4.rowGuid = exRowA.rowGuid ∧
    exHdrC4.lastChanged = exRowA.timestampUnixNano ∧
    [exRowA] = [exRowA] ∧ false = false :=
  claim_C4_thm exKey [exRowA] 9 exGuid2 exNs exEid exFn [] [97] false
    qmfsdb.DeletionType.deleteFile exRowA exHdrC4 [exRowA] false
    (by decide) (by decide) (by decide)

/-- Claim C7: with a valid path and a current active row present, (a) a
non-directory `WriteFile` fails with `FailedPrecondition` whenever the
current row is a directory, and (b) a directory-creating `WriteFile`
(mkdir, empty data) fails with `FailedPrecondition` whatever the current
row is — in particular over a plain file row.  In both cases the function
returns an error, so no row is inserted and none is deactivated. -/
theorem claim_C7_thm (shardingKey : List Nat) (db : List qmfsdb.Row) (t : Int)
    (rowGUID ns eid fn oldRev data : List Nat) (prev : qmfsdb.Row)
    (hvp : qmfsquery.ValidPath fn = true) (heid : eid ≠ [])
    (hsk : shardingKey.length ≠ 0)
    (hcur : qmfsdb.findCurrentRow db ns eid fn = some prev) :
    (prev.directory = true →
      qmfsdb.WriteFile shardingKey db t rowGUID ns eid fn oldRev data false
        = .error .failedPrecondition) ∧
    qmfsdb.WriteFile shardingKey db t rowGUID ns eid fn oldRev [] true
      = .error .failedPrecondition := by
  have hfn : fn ≠ [] := by
    intro hk
    subst hk
    exact absurd hvp (by decide)
  constructor
  · intro hdir
    simp only [qmfsdb.WriteFile, qmfsdb.writeOrDeleteFile, hcur]
    simp [hvp, heid, hsk, hfn, hdir, qmfsshard.Shard]
  · simp only [qmfsdb.WriteFile, qmfsdb.writeOrDeleteFile, hcur]
    simp [hvp, heid, hsk, hfn, qmfsshard.Shard]

set_option maxRecDepth 4000 in
/-- Claim C7 witness: over the directory row `exDirRow`, a plain write of
the byte `a` and a mkdir both fail with `FailedPrecondition`. -/
theorem claim_C7_witness :
    (exDirRow.directory = true →
      qmfsdb.WriteFile exKey [exDirRow] 9 exGuid2 exNs exEid exFn [] [97] false
        = .error .failedPrecondition) ∧
    qmfsdb.WriteFile exKey [exDirRow] 9 exGuid2 exNs exEid exFn [] [] true
      = .error .failedPrecondition :=
  claim_C7_thm exKey [exDirRow] 9 exGuid2 exNs exEid exFn [] [97] exDirRow
    (by decide) (by decide) (by decide) (by decide)

set_option maxRecDepth 4000 in
/-- Claim C8 (amended): every parse failure — whatever its cause — is
surfaced on the query path as `InvalidArgument`; the four causes the
specification lists do occur (invalid path, unmatched bracket, unknown
function, wrong argument count), and a comma inside balanced brackets is
not a clause separator (the whole of `blank[a,b]` is a single component).
The specification's list of failure modes is however not exhaustive: see
the accompanying counterexample for a failing escape sequence. -/
theorem claim_C8_thm :
    (∀ s e, qmfsquery.Parse s = .error e →
      qmfsquery.queryGet s = .error qmfsdb.Code.invalidArgument) ∧
    qmfsquery.Parse [97, 47] = .error .invalidPath ∧
    qmfsquery.Parse [97, 93] = .error .unmatchedBracket ∧
    qmfsquery.Parse [102, 111, 111, 91, 49, 93] = .error .unknownFunction ∧
    qmfsquery.Parse [98, 108, 97, 110, 107, 91, 97, 44, 98, 93]
      = .error .wrongArgCount ∧
    qmfsquery.splitQuerystring [98, 108, 97, 110, 107, 91, 97, 44, 98, 93]
      = .ok [[98, 108, 97, 110, 107, 91, 97, 44, 98, 93]] ∧
    qmfsquery.Parse [98, 108, 97, 110, 107, 91, 97, 93, 44, 98]
      = .ok [⟨false, .fileContents [97] []⟩, ⟨false, .fileExists [98]⟩] := by
  refine ⟨?_, by decide, by decide, by decide, by decide, by decide, by decide⟩
  intro s e h
  unfold qmfsquery.queryGet
  rw [h]

/-- Claim C8 witness: the escape failure of the bare querystring consisting
of a lone percent sign is surfaced as `InvalidArgument`. -/
theorem claim_C8_witness :
    qmfsquery.queryGet [37] = .error qmfsdb.Code.invalidArgument :=
  claim_C8_thm.1 [37] qmfsquery.ParseErr.badEscape (by decide)

/-- Claim C8 counterexample: parsing the querystring consisting of a lone
percent sign fails with an invalid-escape error, a failure mode absent
from the specification's list of exactly four causes. -/
theorem claim_C8_counterexample :
    qmfsquery.Parse [37] = .error qmfsquery.ParseErr.badEscape ∧
    qmfsquery.specListedErrs.contains qmfsquery.ParseErr.badEscape = false := by
  decide

/-- Claim C1 (amended): the compiled `FileContents` predicate compares the
stored `trimmed_data` column against the RAW query value `v` — not against
`trim(v)` as the specification says — while the length and SHA-256
parameters are computed from `trim(v)`.  For a table whose non-tombstone
rows come from the ASCII write path, entity `e` is selected by the
single-clause query `fn=v` iff some active non-tombstone base row carries
`(ns, e)` and some active non-tombstone row at `(ns, e, fn)` stores
`trimmed_data = v` itself. -/
theorem claim_C1_thm (db : List qmfsdb.Row) (ns fn v e : List Nat)
    (hwf : ∀ r ∈ db, r.tombstone = false → qmfsdb.rowFromWrite r) :
    qmfsdb.queryFileContentsResults db ns fn v e = true ↔
      (db.any (fun b => b.active && !b.tombstone && b.ns == ns && b.entityId == e) = true ∧
       ∃ r ∈ db, r.active = true ∧ r.tombstone = false ∧ r.ns = ns ∧
         r.entityId = e ∧ r.filename = fn ∧ r.trimmedData = some v) := by
  unfold qmfsdb.queryFileContentsResults
  rw [Bool.and_eq_true]
  apply and_congr_right
  intro _
  rw [List.any_eq_true]
  constructor
  · rintro ⟨r, hr, hjoin⟩
    refine ⟨r, hr, ?_⟩
    simp only [qmfsdb.fileContentsJoinRow, Bool.and_eq_true, beq_iff_eq,
      Bool.not_eq_true'] at hjoin
    obtain ⟨⟨⟨⟨⟨⟨⟨hns, he⟩, hact⟩, htomb⟩, hfn2⟩, hlen⟩, hsha⟩, hblob⟩ := hjoin
    obtain ⟨c, hc1, hc2⟩ := (qmfsdb.sqlEqBlob_true_iff _ _).mp hblob
    obtain ⟨hcv, _⟩ := (qmfsdb.optOfList_eq_some_iff v c).mp hc2
    exact ⟨hact, htomb, hns, he, hfn2, by rw [hc1, ← hcv]⟩
  · rintro ⟨r, hr, hact, htomb, hns, he, hfn2, htd⟩
    refine ⟨r, hr, ?_⟩
    obtain ⟨X, hX, hTD, hTL, hTS⟩ := hwf r hr htomb
    have hmv : (qmfsdb.partitionData X).2.1 = v ∧ (qmfsdb.partitionData X).2.1 ≠ [] := by
      apply (qmfsdb.optOfList_eq_some_iff _ v).mp
      rw [← hTD, htd]
    have hvne : v ≠ [] := hmv.1 ▸ hmv.2
    have hv128 : ∀ b ∈ v, b < 128 := by
      intro b hb
      exact hX b (qmfsdb.mem_of_mem_mid X b (by rw [hmv.1]; exact hb))
    have hfix : qmfs.goTrimSpace v = v := by
      have hends := qmfsdb.partition_mid_noSpaceEnds X
      exact qmfs.goTrimSpace_fixpoint v hv128 (hmv.1 ▸ hends.1) (hmv.1 ▸ hends.2)
    have htX : qmfs.goTrimSpace X = v := by
      rw [qmfs.ascii_goTrimSpace X hX, hmv.1]
    have hLv : (qmfsdb.computeFileMetadata v).trimmedLength = v.length := by
      show (qmfs.goTrimSpace v).length = v.length
      rw [hfix]
    have hLX : (qmfsdb.computeFileMetadata X).trimmedLength = v.length := by
      show (qmfs.goTrimSpace X).length = v.length
      rw [htX]
    have hSv : (qmfsdb.computeFileMetadata v).trimmedSha256 = gosha256.sha256 v := by
      show gosha256.sha256 (qmfs.goTrimSpace v) = _
      rw [hfix]
    have hSX : (qmfsdb.computeFileMetadata X).trimmedSha256 = gosha256.sha256 v := by
      show gosha256.sha256 (qmfs.goTrimSpace X) = _
      rw [htX]
    simp only [qmfsdb.fileContentsJoinRow, Bool.and_eq_true, beq_iff_eq,
      Bool.not_eq_true']
    refine ⟨⟨⟨⟨⟨⟨⟨hns, he⟩, hact⟩, htomb⟩, hfn2⟩, ?_⟩, ?_⟩, ?_⟩
    · rw [qmfsdb.sqlEqNat_true_iff, hTL, hLX, hLv]
    · rw [qmfsdb.sqlEqBlob_true_iff]
      exact ⟨gosha256.sha256 v, by rw [hTS, hSX], by rw [hSv]⟩
    · rw [qmfsdb.sqlEqBlob_true_iff]
      exact ⟨v, htd, (qmfsdb.optOfList_eq_some_iff v v).mpr ⟨rfl, hvne⟩⟩

set_option maxRecDepth 4000 in
/-- Claim C1 witness: with the single stored row `exRowA` (written data
the byte `a`, whose trimmed bytes are `a`), the query value `a` selects
the entity. -/
theorem claim_C1_witness :
    qmfsdb.queryFileContentsResults [exRowA] exNs exFn [97] exEid = true :=
  (claim_C1_thm [exRowA] exNs exFn [97] exEid
    (fun r hr _ => by
      have he : r = exRowA := by simpa using hr
      subst he
      exact ⟨[97], by decide, by decide, by decide, by decide⟩)).mpr
    ⟨by decide, exRowA, by simp, by decide, by decide, by decide, by decide, by decide⟩

set_option maxRecDepth 4000 in
/-- Claim C1 counterexample: for the query value `space a`, the stored
trimmed bytes of `exRowA` equal the trimmed query value, yet the compiled
query does not select the entity, because the compiler binds the raw
query value — and the raw value itself does select it. -/
theorem claim_C1_counterexample :
    qmfs.goTrimSpace [32, 97] = [97] ∧
    exRowA.trimmedData = some [97] ∧
    qmfsdb.queryFileContentsResults [exRowA] exNs exFn [32, 97] exEid = false ∧
    qmfsdb.queryFileContentsResults [exRowA] exNs exFn [97] exEid = true := by
  decide
